import Mathlib

/-!
# Verification of the HUFS Clock API extraction engine

A shallow embedding, in Lean 4, of the data-extraction and normalization
logic of `src/index.py` (FastAPI service scraping HUFS university pages):

* the schedule extractor `crawl_schedule` / `_extract_schedule_dates`;
* the notice extractor `crawl_notices`;
* the meal extractor `_crawl_meals_by_campus` with its week-window /
  month-clamping computation (a proleptic-Gregorian calendar model stands
  in for Python's `datetime` library);
* the weather endpoint `get_weather` (both upstream calls, category
  reduction, and its exception handlers);
* the timetable parameter builder of `search_timetable`;
* the notice merge-and-sort of `_get_common_data`.

HTTP transport and HTML parsing are external collaborators: each fetch is
modelled as an abstract outcome (transport error / non-2xx status /
a parsed document), and a parsed document is modelled by the record
structure the Python code actually queries (cells, anchors, text nodes).
Every Python `try/except` boundary is modelled with `Except` and an
explicit catch, so "the function never raises" is totality of the Lean
function, and each failure path's return value is stated explicitly.
-/

namespace HufsClock

/-! ## String helpers

Python string primitives used by the source (`str.strip`, `str.split('~')`,
`in` substring tests, slicing `[:2]`) are modelled over `List Char` so that
all proofs evaluate by kernel reduction.
-/

/-- Whitespace test matching the characters Python's `str.strip` removes
(the ASCII ones that occur in the scraped pages). -/
def isWsp (c : Char) : Bool :=
  c = ' ' || c = '\t' || c = '\n' || c = '\r'

/-- Python `str.strip()`. -/
def trimS (s : String) : String :=
  (((s.data.dropWhile isWsp).reverse.dropWhile isWsp).reverse).asString

/-- Python `text.split('~')` (single-character separator, keeps empties,
always returns at least one segment). -/
def splitTildeAux (cur : List Char) (acc : List String) : List Char → List String
  | [] => (cur.reverse.asString :: acc).reverse
  | c :: cs =>
    if c = '~' then splitTildeAux [] (cur.reverse.asString :: acc) cs
    else splitTildeAux (c :: cur) acc cs

def splitTilde (s : String) : List String :=
  splitTildeAux [] [] s.data

/-- Does `hay` start with `needle`? (helper for the substring test). -/
def ledBy : List Char → List Char → Bool
  | _, [] => true
  | [], _ :: _ => false
  | h :: hs, n :: ns => h = n && ledBy hs ns

/-- Python's `needle in hay` substring containment. -/
def hasSubL (hay needle : List Char) : Bool :=
  match hay with
  | [] => needle.isEmpty
  | _ :: hs => ledBy hay needle || hasSubL hs needle

def strHas (hay needle : String) : Bool :=
  hasSubL hay.data needle.data

/-- Python slicing `s[:2]`. -/
def take2 (s : String) : String :=
  (s.data.take 2).asString

/-- Newline join, as used by `'\n'.join(...)`. -/
def joinNl : List String → String
  | [] => ""
  | [x] => x
  | x :: xs => x ++ "\n" ++ joinNl xs

/-! ## Calendar model

`_crawl_meals_by_campus` uses Python `datetime` arithmetic
(`today.weekday()`, `timedelta` addition/subtraction, `.year/.month/.day`).
We model the proleptic Gregorian calendar exactly as CPython implements it:
`toOrdinal ⟨1,1,1⟩ = 1`, and `weekday` is `(toordinal - 1) % 7` with
Monday = 0.
-/

structure Date where
  year : Nat
  month : Nat
  day : Nat
deriving DecidableEq, Repr

def isLeap (y : Nat) : Bool :=
  y % 4 == 0 && (y % 100 != 0 || y % 400 == 0)

/-- Length of month `m` in a year with leap flag `leap`. -/
def monthLen (leap : Bool) (m : Nat) : Nat :=
  if m = 2 then (if leap then 29 else 28)
  else if m = 4 ∨ m = 6 ∨ m = 9 ∨ m = 11 then 30
  else 31

/-- Days in months `1..m` of a year with leap flag `leap`. -/
def cumDays (leap : Bool) : Nat → Nat
  | 0 => 0
  | m + 1 => cumDays leap m + monthLen leap (m + 1)

def daysInMonth (y m : Nat) : Nat := monthLen (isLeap y) m

/-- Days in all years before year `y` (CPython's `_days_before_year`). -/
def daysBeforeYear (y : Nat) : Nat :=
  365 * (y - 1) + (y - 1) / 4 + (y - 1) / 400 - (y - 1) / 100

/-- CPython's `date.toordinal`: day 1 is 0001-01-01. -/
def toOrdinal (d : Date) : Nat :=
  daysBeforeYear d.year + cumDays (isLeap d.year) (d.month - 1) + d.day

/-- CPython's `date.weekday()`: Monday = 0 (0001-01-01 is a Monday). -/
def Date.weekday (d : Date) : Nat :=
  (toOrdinal d - 1) % 7

def Date.valid (d : Date) : Prop :=
  1 ≤ d.year ∧ 1 ≤ d.month ∧ d.month ≤ 12 ∧ 1 ≤ d.day ∧ d.day ≤ daysInMonth d.year d.month

instance (d : Date) : Decidable d.valid := by
  unfold Date.valid; infer_instance

/-- One day earlier (the semantics of `d - timedelta(days=1)`). -/
def subDays1 (d : Date) : Date :=
  if 1 < d.day then ⟨d.year, d.month, d.day - 1⟩
  else if 1 < d.month then ⟨d.year, d.month - 1, daysInMonth d.year (d.month - 1)⟩
  else ⟨d.year - 1, 12, 31⟩

/-- One day later (the semantics of `d + timedelta(days=1)`). -/
def addDays1 (d : Date) : Date :=
  if d.day < daysInMonth d.year d.month then ⟨d.year, d.month, d.day + 1⟩
  else if d.month < 12 then ⟨d.year, d.month + 1, 1⟩
  else ⟨d.year + 1, 1, 1⟩

/-- `d - timedelta(days=k)`. -/
def subD (d : Date) : Nat → Date
  | 0 => d
  | k + 1 => subDays1 (subD d k)

/-- `d + timedelta(days=k)`. -/
def addD (d : Date) : Nat → Date
  | 0 => d
  | k + 1 => addD (addDays1 d) k

/-! ### Calendar lemmas -/

theorem monthLen_pos (leap : Bool) (m : Nat) : 1 ≤ monthLen leap m := by
  unfold monthLen
  split_ifs <;> omega

theorem monthLen_twelve (leap : Bool) : monthLen leap 12 = 31 := by
  cases leap <;> rfl

theorem cumDays_twelve (leap : Bool) :
    cumDays leap 12 = if leap then 366 else 365 := by
  cases leap <;> decide

theorem isLeap_iff (y : Nat) :
    isLeap y = true ↔ (y % 4 = 0 ∧ (y % 100 ≠ 0 ∨ y % 400 = 0)) := by
  unfold isLeap
  simp [Bool.and_eq_true, Bool.or_eq_true, beq_iff_eq, bne_iff_ne]

theorem daysBeforeYear_succ (y : Nat) (hy : 1 ≤ y) :
    daysBeforeYear (y + 1) = daysBeforeYear y + (if isLeap y then 366 else 365) := by
  unfold daysBeforeYear
  simp only [Nat.add_sub_cancel]
  by_cases hL : isLeap y = true
  · rw [if_pos hL]
    rw [isLeap_iff] at hL
    obtain ⟨h4, h⟩ := hL
    rcases h with h100 | h400 <;> omega
  · rw [if_neg hL]
    rw [isLeap_iff] at hL
    by_cases h4 : y % 4 = 0
    · have h100 : y % 100 = 0 := by
        by_contra hc
        exact hL ⟨h4, Or.inl hc⟩
      have h400 : y % 400 ≠ 0 := by
        intro hc
        exact hL ⟨h4, Or.inr hc⟩
      omega
    · omega

theorem daysBeforeYear_le_one (y : Nat) (hy : y ≤ 1) : daysBeforeYear y = 0 := by
  interval_cases y <;> decide

theorem toOrdinal_pos (d : Date) (hv : d.valid) : 1 ≤ toOrdinal d := by
  obtain ⟨-, -, -, hd, -⟩ := hv
  unfold toOrdinal
  omega

theorem valid_mk {y m dy : Nat} :
    (Date.mk y m dy).valid ↔ 1 ≤ y ∧ 1 ≤ m ∧ m ≤ 12 ∧ 1 ≤ dy ∧ dy ≤ daysInMonth y m :=
  Iff.rfl

theorem subDays1_spec (d : Date) (hv : d.valid) (h2 : 2 ≤ toOrdinal d) :
    (subDays1 d).valid ∧ toOrdinal (subDays1 d) = toOrdinal d - 1 := by
  obtain ⟨y, m, dy⟩ := d
  obtain ⟨hy, hm1, hm12, hd1, hdM⟩ := valid_mk.mp hv
  unfold subDays1
  dsimp only
  split_ifs with hday hmon
  · -- day > 1: same month, previous day
    refine ⟨valid_mk.mpr ⟨hy, hm1, hm12, by omega, by omega⟩, ?_⟩
    show daysBeforeYear y + cumDays (isLeap y) (m - 1) + (dy - 1)
      = daysBeforeYear y + cumDays (isLeap y) (m - 1) + dy - 1
    omega
  · -- day = 1, month > 1: last day of previous month
    have hD : dy = 1 := by omega
    obtain ⟨k, rfl⟩ : ∃ k, m = k + 2 := ⟨m - 2, by omega⟩
    have hstep : cumDays (isLeap y) (k + 1) =
        cumDays (isLeap y) k + monthLen (isLeap y) (k + 1) := rfl
    constructor
    · exact valid_mk.mpr ⟨hy, by omega, by omega, monthLen_pos _ _, le_refl _⟩
    · show daysBeforeYear y + cumDays (isLeap y) k + monthLen (isLeap y) (k + 1)
        = daysBeforeYear y + cumDays (isLeap y) (k + 1) + dy - 1
      omega
  · -- day = 1, month = 1: December 31 of the previous year
    have hD : dy = 1 := by omega
    have hM : m = 1 := by omega
    subst hD; subst hM
    have h2' : 2 ≤ daysBeforeYear y + 0 + 1 := h2
    have hy2 : 2 ≤ y := by
      by_contra hc
      have := daysBeforeYear_le_one y (by omega)
      omega
    have hsucc := daysBeforeYear_succ (y - 1) (by omega)
    have hyy : y - 1 + 1 = y := by omega
    rw [hyy] at hsucc
    have hc12 : cumDays (isLeap (y - 1)) 12 =
        cumDays (isLeap (y - 1)) 11 + monthLen (isLeap (y - 1)) 12 := rfl
    have hc12v := cumDays_twelve (isLeap (y - 1))
    have hml12 := monthLen_twelve (isLeap (y - 1))
    constructor
    · refine valid_mk.mpr ⟨by omega, by omega, by omega, by omega, ?_⟩
      show (31 : Nat) ≤ monthLen (isLeap (y - 1)) 12
      omega
    · show daysBeforeYear (y - 1) + cumDays (isLeap (y - 1)) 11 + 31
        = daysBeforeYear y + 0 + 1 - 1
      split_ifs at hc12v hsucc <;> omega

theorem addDays1_spec (d : Date) (hv : d.valid) :
    (addDays1 d).valid ∧ toOrdinal (addDays1 d) = toOrdinal d + 1 := by
  obtain ⟨y, m, dy⟩ := d
  obtain ⟨hy, hm1, hm12, hd1, hdM⟩ := valid_mk.mp hv
  unfold addDays1
  dsimp only
  split_ifs with hday hmon
  · -- next day in the same month
    refine ⟨valid_mk.mpr ⟨hy, hm1, hm12, by omega, by omega⟩, ?_⟩
    show daysBeforeYear y + cumDays (isLeap y) (m - 1) + (dy + 1)
      = daysBeforeYear y + cumDays (isLeap y) (m - 1) + dy + 1
    omega
  · -- first day of the next month
    have hDle : daysInMonth y m ≤ dy := by omega
    obtain ⟨k, rfl⟩ : ∃ k, m = k + 1 := ⟨m - 1, by omega⟩
    have hstep : cumDays (isLeap y) (k + 1) =
        cumDays (isLeap y) k + monthLen (isLeap y) (k + 1) := rfl
    have hdim : daysInMonth y (k + 1) = monthLen (isLeap y) (k + 1) := rfl
    constructor
    · exact valid_mk.mpr ⟨hy, by omega, by omega, by omega, monthLen_pos _ _⟩
    · show daysBeforeYear y + cumDays (isLeap y) (k + 1) + 1
        = daysBeforeYear y + cumDays (isLeap y) k + dy + 1
      omega
  · -- January 1 of the next year
    have hM : m = 12 := by omega
    subst hM
    have hdim : daysInMonth y 12 = 31 := monthLen_twelve (isLeap y)
    have hD : dy = 31 := by omega
    subst hD
    have hsucc := daysBeforeYear_succ y hy
    have hc12 : cumDays (isLeap y) 12 =
        cumDays (isLeap y) 11 + monthLen (isLeap y) 12 := rfl
    have hc12v := cumDays_twelve (isLeap y)
    have hml12 := monthLen_twelve (isLeap y)
    constructor
    · exact valid_mk.mpr ⟨by omega, by omega, by omega, by omega, monthLen_pos _ _⟩
    · show daysBeforeYear (y + 1) + 0 + 1
        = daysBeforeYear y + cumDays (isLeap y) 11 + 31 + 1
      split_ifs at hc12v hsucc <;> omega

theorem addDays1_subDays1 (d : Date) (hv : d.valid) (h2 : 2 ≤ toOrdinal d) :
    addDays1 (subDays1 d) = d := by
  obtain ⟨y, m, dy⟩ := d
  obtain ⟨hy, hm1, hm12, hd1, hdM⟩ := valid_mk.mp hv
  unfold subDays1
  dsimp only
  split_ifs with hday hmon
  · -- went back one day in the same month
    unfold addDays1
    dsimp only
    rw [if_pos (show dy - 1 < daysInMonth y m by omega)]
    have h1 : dy - 1 + 1 = dy := by omega
    rw [h1]
  · -- went back to the last day of the previous month
    have hD : dy = 1 := by omega
    unfold addDays1
    dsimp only
    rw [if_neg (show ¬ daysInMonth y (m - 1) < daysInMonth y (m - 1) by omega)]
    rw [if_pos (show m - 1 < 12 by omega)]
    have h1 : m - 1 + 1 = m := by omega
    rw [h1, hD]
  · -- went back to December 31 of the previous year
    have hD : dy = 1 := by omega
    have hM : m = 1 := by omega
    subst hD; subst hM
    have h2' : 2 ≤ daysBeforeYear y + 0 + 1 := h2
    have hy2 : 2 ≤ y := by
      by_contra hc
      have := daysBeforeYear_le_one y (by omega)
      omega
    have hdim : daysInMonth (y - 1) 12 = 31 := monthLen_twelve (isLeap (y - 1))
    unfold addDays1
    dsimp only
    rw [if_neg (show ¬ (31 : Nat) < daysInMonth (y - 1) 12 by omega)]
    rw [if_neg (show ¬ (12 : Nat) < 12 by omega)]
    have h1 : y - 1 + 1 = y := by omega
    rw [h1]


theorem subD_spec (d : Date) (hv : d.valid) :
    ∀ k, k ≤ toOrdinal d - 1 → (subD d k).valid ∧ toOrdinal (subD d k) = toOrdinal d - k := by
  intro k
  induction k with
  | zero => exact fun _ => ⟨hv, rfl⟩
  | succ n ih =>
    intro hle
    obtain ⟨hvn, hon⟩ := ih (by omega)
    have h2 : 2 ≤ toOrdinal (subD d n) := by
      have := toOrdinal_pos d hv
      omega
    obtain ⟨hv1, ho1⟩ := subDays1_spec (subD d n) hvn h2
    exact ⟨hv1, by simpa [subD, ho1] using by omega⟩

theorem addD_spec (d : Date) (hv : d.valid) (k : Nat) :
    (addD d k).valid ∧ toOrdinal (addD d k) = toOrdinal d + k := by
  induction k generalizing d with
  | zero => exact ⟨hv, rfl⟩
  | succ n ih =>
    obtain ⟨hv1, ho1⟩ := addDays1_spec d hv
    obtain ⟨hvn, hon⟩ := ih (addDays1 d) hv1
    exact ⟨hvn, by simp [addD, hon, ho1]; omega⟩

theorem addD_subD (d : Date) (hv : d.valid) :
    ∀ k, k ≤ toOrdinal d - 1 → addD (subD d k) k = d := by
  intro k
  induction k with
  | zero => exact fun _ => rfl
  | succ n ih =>
    intro hle
    obtain ⟨hvn, hon⟩ := subD_spec d hv n (by omega)
    have h2 : 2 ≤ toOrdinal (subD d n) := by
      have := toOrdinal_pos d hv
      omega
    have heq : addDays1 (subD d (n + 1)) = subD d n :=
      addDays1_subDays1 (subD d n) hvn h2
    have : addD (subD d (n + 1)) (n + 1) = addD (addDays1 (subD d (n + 1))) n := rfl
    rw [this, heq]
    exact ih (by omega)

/-! ## The meal extractor's week window (`_crawl_meals_by_campus`, lines 218-262)

`start_of_week = today - timedelta(days=today.weekday())`,
`end_of_week = start_of_week + timedelta(days=5)`, then the four-case month
clamp; the code obtains the last day of the current month as
`next_month - timedelta(days=1)` where `next_month` is the first day of the
following month.
-/

/-- `next_month`: `datetime(year+1, 1, 1)` when in December, else
`datetime(year, month+1, 1)`. -/
def nextMonthFirst (today : Date) : Date :=
  if today.month = 12 then ⟨today.year + 1, 1, 1⟩ else ⟨today.year, today.month + 1, 1⟩

def mealWeekWindow (today : Date) : Nat × Nat :=
  if (subD today today.weekday).month = today.month ∧
      (addD (subD today today.weekday) 5).month = today.month then
    ((subD today today.weekday).day, (addD (subD today today.weekday) 5).day)
  else if (subD today today.weekday).month = today.month then
    ((subD today today.weekday).day, (subD (nextMonthFirst today) 1).day)
  else if (addD (subD today today.weekday) 5).month = today.month then
    (1, (addD (subD today today.weekday) 5).day)
  else
    (1, (subD (nextMonthFirst today) 1).day)

/-- The four-case clamp as claim C4 words it, with "the last day of the
current month" written directly as `daysInMonth`, for comparison with the
code's `next_month - timedelta(days=1)` computation. -/
def clampSpecWindow (today startOfWeek endOfWeek : Date) : Nat × Nat :=
  if startOfWeek.month = today.month ∧ endOfWeek.month = today.month then
    (startOfWeek.day, endOfWeek.day)
  else if startOfWeek.month = today.month then
    (startOfWeek.day, daysInMonth today.year today.month)
  else if endOfWeek.month = today.month then
    (1, endOfWeek.day)
  else
    (1, daysInMonth today.year today.month)

theorem nextMonthFirst_last_day (today : Date) (h1 : 1 ≤ today.month)
    (h12 : today.month ≤ 12) :
    (subD (nextMonthFirst today) 1).day = daysInMonth today.year today.month := by
  unfold nextMonthFirst
  by_cases hm : today.month = 12
  · rw [if_pos hm, hm]
    show (subDays1 ⟨today.year + 1, 1, 1⟩).day = daysInMonth today.year 12
    unfold subDays1
    dsimp only
    rw [if_neg (by omega), if_neg (by omega)]
    show (31 : Nat) = daysInMonth today.year 12
    exact (monthLen_twelve (isLeap today.year)).symm
  · rw [if_neg hm]
    show (subDays1 ⟨today.year, today.month + 1, 1⟩).day
      = daysInMonth today.year today.month
    unfold subDays1
    dsimp only
    rw [if_neg (by omega), if_pos (by omega)]
    rfl

theorem weekday_lt_seven (d : Date) : d.weekday < 7 :=
  Nat.mod_lt _ (by omega)

theorem weekday_le_sub (d : Date) : d.weekday ≤ toOrdinal d - 1 :=
  Nat.mod_le _ _

theorem startOfWeek_monday (d : Date) (hv : d.valid) :
    (subD d d.weekday).weekday = 0 := by
  have hpos := toOrdinal_pos d hv
  obtain ⟨hvs, hos⟩ := subD_spec d hv d.weekday (weekday_le_sub d)
  show (toOrdinal (subD d d.weekday) - 1) % 7 = 0
  rw [hos]
  show (toOrdinal d - (toOrdinal d - 1) % 7 - 1) % 7 = 0
  omega

/-- **C4.** For every valid calendar date `today`, `_crawl_meals_by_campus`
computes the week window with `start = today - today.weekday()` being the
Monday of today's week (weekday 0, and adding the offset back returns
`today`, with the offset below 7), `end = start + 5 days` falling on a
Saturday (weekday 5), and derives `week_first_day`/`week_last_day` by the
four-case month clamping of the claim, where "last day of the current
month" is `daysInMonth today.year today.month`. -/
theorem c4_meal_week_window (today : Date) (hv : today.valid) :
    (subD today today.weekday).weekday = 0 ∧
    today.weekday < 7 ∧
    addD (subD today today.weekday) today.weekday = today ∧
    (addD (subD today today.weekday) 5).weekday = 5 ∧
    mealWeekWindow today
      = clampSpecWindow today (subD today today.weekday)
          (addD (subD today today.weekday) 5) := by
  have hpos := toOrdinal_pos today hv
  obtain ⟨hvs, hos⟩ := subD_spec today hv today.weekday (weekday_le_sub today)
  refine ⟨startOfWeek_monday today hv, weekday_lt_seven today,
    addD_subD today hv today.weekday (weekday_le_sub today), ?_, ?_⟩
  · obtain ⟨hve, hoe⟩ := addD_spec (subD today today.weekday) hvs 5
    show (toOrdinal (addD (subD today today.weekday) 5) - 1) % 7 = 5
    rw [hoe, hos]
    show (toOrdinal today - (toOrdinal today - 1) % 7 + 5 - 1) % 7 = 5
    omega
  · obtain ⟨hy, hm1, hm12, -, -⟩ := hv
    unfold mealWeekWindow clampSpecWindow
    rw [nextMonthFirst_last_day today hm1 hm12]

/-- Witness for C4 at the concrete date 2024-12-30 (a Monday whose week
straddles the December/January month boundary). -/
theorem c4_meal_week_window_witness :
    (Date.mk 2024 12 30).valid ∧
    ((subD ⟨2024, 12, 30⟩ (Date.weekday ⟨2024, 12, 30⟩)).weekday = 0 ∧
      (Date.weekday ⟨2024, 12, 30⟩) < 7 ∧
      addD (subD ⟨2024, 12, 30⟩ (Date.weekday ⟨2024, 12, 30⟩))
        (Date.weekday ⟨2024, 12, 30⟩) = ⟨2024, 12, 30⟩ ∧
      (addD (subD ⟨2024, 12, 30⟩ (Date.weekday ⟨2024, 12, 30⟩)) 5).weekday = 5 ∧
      mealWeekWindow ⟨2024, 12, 30⟩
        = clampSpecWindow ⟨2024, 12, 30⟩
            (subD ⟨2024, 12, 30⟩ (Date.weekday ⟨2024, 12, 30⟩))
            (addD (subD ⟨2024, 12, 30⟩ (Date.weekday ⟨2024, 12, 30⟩)) 5)) :=
  ⟨by decide, c4_meal_week_window ⟨2024, 12, 30⟩ (by decide)⟩

/-! ## Fetch outcomes

An upstream HTTP fetch, as seen by the degrade-to-empty extractors
(`crawl_schedule`, `crawl_notices`, `_crawl_meals_by_campus`): either the
`requests` call raises (transport error / timeout), or `raise_for_status()`
raises on a non-2xx status, or a parsed document of type `α` is obtained.
-/

inductive FetchOutcome (α : Type) where
  | transportError
  | httpStatusError
  | ok (page : α)
deriving DecidableEq, Repr

def HUFS_DOMAIN : String := "https://www.hufs.ac.kr"

/-! ## Schedule extractor (`crawl_schedule` lines 134-155,
`_extract_schedule_dates` lines 157-179)

A calendar list item contributes its `p.list-date` texts paired (by `zip`,
which truncates to the shorter list) with its `p.list-content` texts; the
texts are modelled post-`get_text(strip=True)`.
-/

structure ScheduleDates where
  first_start : Option String
  first_end : Option String
  second_start : Option String
  second_end : Option String
deriving DecidableEq, Repr

def emptyScheduleDates : ScheduleDates := ⟨none, none, none, none⟩

/-- One `(date_text, event_str)` pair of the inner loop of
`_extract_schedule_dates`. -/
def schedStep (sd : ScheduleDates) (p : String × String) : ScheduleDates :=
  let parts := (splitTilde p.1).map trimS
  let firstDate := parts.headD ""
  let lastDate := parts.getLastD ""
  if strHas p.2 "제1학기" && (strHas p.2 "개강" || strHas p.2 "학기개시일") then
    { sd with first_start := some firstDate }
  else if strHas p.2 "제1학기 기말시험" then
    { sd with first_end := some lastDate }
  else if strHas p.2 "제2학기" && (strHas p.2 "개강" || strHas p.2 "학기개시일") then
    { sd with second_start := some firstDate }
  else if strHas p.2 "제2학기 기말시험" then
    { sd with second_end := some lastDate }
  else sd

def extract_schedule_dates (items : List (List String × List String)) : ScheduleDates :=
  items.foldl (fun sd item => (item.1.zip item.2).foldl schedStep sd) emptyScheduleDates

/-- `crawl_schedule`: the page is the `div#timeTableList` container
(`none` when absent, in which case the raised `ValueError` is caught by the
function's own `except` and `{}` is returned). -/
def crawl_schedule
    (o : FetchOutcome (Option (List (List String × List String)))) : ScheduleDates :=
  match o with
  | .transportError => emptyScheduleDates
  | .httpStatusError => emptyScheduleDates
  | .ok none => emptyScheduleDates
  | .ok (some items) => extract_schedule_dates items

/-! ## Notice extractor (`crawl_notices` lines 181-212)

A row of `soup.select("tbody tr:not(.notice)")` output is modelled with its
pinned flag (rows with class `notice` carry `pinned = true` and are removed
by the selector), its optional `td.td-subject` cell (holding an optional
anchor), and its optional `td.td-date` text.
-/

structure Anchor where
  href : String
  text : String
  strongText : Option String
  hasNewSpan : Bool
deriving DecidableEq, Repr

structure SubjectCell where
  anchor : Option Anchor
deriving DecidableEq, Repr

structure NoticeRow where
  pinned : Bool
  subjectCell : Option SubjectCell
  dateText : Option String
deriving DecidableEq, Repr

structure NoticeRec where
  date : Option String
  title : String
  link : String
deriving DecidableEq, Repr

/-- The body of the row loop: `continue` when the subject cell, the date
cell, or the anchor inside the subject cell is missing; otherwise the title
comes from the `strong` tag when present (else the anchor text), gets
`" (NEW)"` appended when a `span.new` is present, and the link is
`HUFS_DOMAIN + href`. -/
def rowToNotice (r : NoticeRow) : Option NoticeRec :=
  match r.subjectCell, r.dateText with
  | some cell, some dateText =>
    match cell.anchor with
    | some a =>
      let baseTitle := match a.strongText with | some s => s | none => a.text
      let title := if a.hasNewSpan then baseTitle ++ " (NEW)" else baseTitle
      some ⟨some dateText, title, HUFS_DOMAIN ++ a.href⟩
    | none => none
  | _, _ => none

/-- One iteration of `for row in notice_rows[:10]`: `continue` on a
malformed row, else append. -/
def noticeAppendStep (acc : List NoticeRec) (row : NoticeRow) : List NoticeRec :=
  match rowToNotice row with
  | none => acc
  | some n => acc ++ [n]

/-- The loop `for row in notice_rows[:10]` with its `continue`s, appending
to `notices`. -/
def processNoticeRows (rows : List NoticeRow) : List NoticeRec :=
  ((rows.filter (fun r => !r.pinned)).take 10).foldl noticeAppendStep []

def crawl_notices (o : FetchOutcome (List NoticeRow)) : List NoticeRec :=
  match o with
  | .transportError => []
  | .httpStatusError => []
  | .ok rows => processNoticeRows rows

/-! ## Meal extractor (`_crawl_meals_by_campus` lines 214-337)

A `<td>` cell of the weekly menu table is modelled by the views the code
queries: the `p.pay` text, the `strong.point` inside the first `li` (the
event-day marker position), the second `li`'s newline-joined text, the list
of `li` elements (each with its space-joined text and its `strong.point`
texts), and the cell's own newline-joined text with the `p.pay` subtree
removed (the `decompose()` fallback path).
-/

structure MealLi where
  textSpace : String
  strongPointTexts : List String
deriving DecidableEq, Repr

structure MealTd where
  payText : Option String
  firstLiStrongPoint : Option String
  secondLiTextNl : Option String
  lis : List MealLi
  rawTextNoPayNl : String
deriving DecidableEq, Repr

structure MealRow where
  th : Option String
  tds : List MealTd
deriving DecidableEq, Repr

structure MenuItem where
  name : String
  price : String
deriving DecidableEq, Repr

structure MealSlot where
  time : String
  menus : List MenuItem
deriving DecidableEq, Repr

/-- The event-day test (line 295): campus path `"2"` and a first-`li`
`strong.point` containing the fixed marker phrase. -/
def isEventDayTd (campusPath : String) (td : MealTd) : Bool :=
  campusPath = "2"
    && (match td.firstLiStrongPoint with
        | some t => strHas t "** 이벤트 데이 **"
        | none => false)

/-- The menu-name extraction chain for one cell: event-day variant (campus
"2" only), else highlighted list items joined by newline (falling back to
all list items' text), else the raw cell text after `pay_tag.decompose()`
removed the price subtree. -/
def extractMenuName (campusPath : String) (td : MealTd) : String :=
  if isEventDayTd campusPath td then
    match td.secondLiTextNl with
    | some t => t
    | none => ""
  else if td.lis.isEmpty then
    td.rawTextNoPayNl
  else
    let strongTexts := (td.lis.map (fun li => li.strongPointTexts)).flatten
    if strongTexts.isEmpty then
      joinNl (td.lis.map (fun li => li.textSpace))
    else
      joinNl strongTexts

/-- The price read at line 315, *after* the name-extraction chain ran: in
the no-`ul > li` fallback branch, line 312 already called
`pay_tag.decompose()`, which empties the tag, so the price recorded there
is `''` even when a `p.pay` was present; in every other branch it is the
`p.pay` text (or `''` when the tag is absent). -/
def tdPrice (campusPath : String) (td : MealTd) : String :=
  if !isEventDayTd campusPath td && td.lis.isEmpty then ""
  else match td.payText with | some t => t | none => ""

/-- The per-cell body of the menu loop: the extracted name, the price as
recorded after the possible `decompose()`, the campus-"1" breakfast
substitution of `"방학중에는"` by `"방학"`, and the skip of names that are
blank or carry the "no menu registered" marker. -/
def processTd (campusPath mealTime : String) (acc : List MenuItem) (td : MealTd) :
    List MenuItem :=
  let name0 := extractMenuName campusPath td
  let price := tdPrice campusPath td
  let name :=
    if campusPath = "1" && strHas mealTime "조식" && strHas name0 "방학중에는" then "방학"
    else name0
  if strHas name "등록된 메뉴가" || trimS name = "" then acc
  else acc ++ [⟨name, price⟩]

/-- One `<tr>`: skipped when the header cell is missing or there are no
data cells; otherwise a `MealSlot` (possibly with an empty menu list). -/
def parseMealRow (campusPath : String) (row : MealRow) : Option MealSlot :=
  match row.th with
  | none => none
  | some t =>
    if row.tds.isEmpty then none
    else some ⟨t, row.tds.foldl (processTd campusPath t) []⟩

def parseMealRows (campusPath : String) (rows : List MealRow) : List MealSlot :=
  rows.foldl
    (fun acc row =>
      match parseMealRow campusPath row with
      | none => acc
      | some s => acc ++ [s]) []

/-- The form-POST payload built from the week window (`caf_id` is `h101`
for campus path "1", else `h203`). -/
structure MealPayload where
  selCafId : String
  selWeekFirstDay : Nat
  selWeekLastDay : Nat
  selYear : Nat
  selMonth : Nat
deriving DecidableEq, Repr

def mealRequestPayload (campusPath : String) (today : Date) : MealPayload :=
  ⟨if campusPath = "1" then "h101" else "h203",
    (mealWeekWindow today).1, (mealWeekWindow today).2, today.year, today.month⟩

def crawl_meals_by_campus (campusPath : String) (today : Date)
    (o : FetchOutcome (List MealRow)) : List MealSlot :=
  match o with
  | .transportError => []
  | .httpStatusError => []
  | .ok rows => parseMealRows campusPath rows

/-! ## Weather endpoint (`get_weather` lines 446-623)

An upstream weather response, as the code inspects it: a fetch can raise in
transport (caught by the generic `except Exception`), raise `HTTPError` in
`raise_for_status()`, raise `ValueError` in `.json()`, or deliver a JSON
body whose `response.body.items.item` path is missing, a single object, or
a list of items.  Item fields are modelled as total strings: the current
parse reads `category`/`obsrValue` and the forecast parse reads
`fcstDate`/`fcstTime`/`category`/`fcstValue` (with `.get` defaults already
applied).
-/

structure WItem where
  category : String
  obsrValue : String
  fcstDate : String
  fcstTime : String
  fcstValue : String
deriving DecidableEq, Repr

inductive ItemsShape where
  | missing
  | one (i : WItem)
  | many (l : List WItem)
deriving DecidableEq, Repr

inductive WFetch where
  | transportError (msg : String)
  | httpStatusError (msg : String)
  | badJson
  | ok (shape : ItemsShape)
deriving DecidableEq, Repr

/-- `if not isinstance(items, list): items = [items]`, after the structure
check; `none` when the `response.body.items.item` path is absent. -/
def normalizeItems : ItemsShape → Option (List WItem)
  | .missing => none
  | .one i => some [i]
  | .many l => some l

structure WData where
  temp : String
  humidity : String
  rainType : String
  sky : String
  tmn : String
  tmx : String
deriving DecidableEq, Repr

/-- The initial `result` dict of `get_weather` (line 513): note `rainType`
starts at `"0"` while every other field starts at the `"-"` sentinel. -/
def initResult : WData := ⟨"-", "-", "0", "-", "-", "-"⟩

structure WSuccess where
  campus : String
  checkTime : String
  forecastTime : String
  data : WData
deriving DecidableEq, Repr

inductive WOut where
  | success (s : WSuccess)
  | error (msg : String)
deriving DecidableEq, Repr

/-- The Python exception that escapes the `try` body, by handler class. -/
inductive PyErr where
  | httpError (msg : String)
  | valueError
  | other (msg : String)
deriving DecidableEq, Repr

/-- One current-reading item (lines 523-529): category `T1H`/`REH`/`PTY`
assigns `obsrValue`; the last matching item wins. -/
def currentStep (r : WData) (i : WItem) : WData :=
  if i.category = "T1H" then { r with temp := i.obsrValue }
  else if i.category = "REH" then { r with humidity := i.obsrValue }
  else if i.category = "PTY" then { r with rainType := i.obsrValue }
  else r

/-- The current-reading loop. -/
def parseCurrent (items : List WItem) (r : WData) : WData :=
  items.foldl currentStep r

/-- State of the forecast loop (lines 564-600): the result so far, the SKY
bookkeeping `sky_time`/`sky_date`, and the `tmn_found`/`tmx_found` flags. -/
structure FState where
  r : WData
  skyTime : String
  skyDate : String
  tmnFound : Bool
  tmxFound : Bool
deriving DecidableEq, Repr

/-- One forecast item (the loop body, lines 571-600). -/
def fStep (todayS tomorrowS targetTmn targetTmx : String) (st : FState) (i : WItem) :
    FState :=
  if i.category = "SKY" then
    if i.fcstDate = todayS ∨ i.fcstDate = tomorrowS then
      if i.fcstDate = todayS then
        if st.skyTime < i.fcstTime then
          { st with r := { st.r with sky := i.fcstValue },
                    skyTime := i.fcstTime, skyDate := i.fcstDate }
        else st
      else
        if st.skyDate = "" ∨ (st.skyDate = tomorrowS ∧ st.skyTime < i.fcstTime) then
          { st with r := { st.r with sky := i.fcstValue },
                    skyTime := i.fcstTime, skyDate := i.fcstDate }
        else st
    else st
  else if i.category = "TMN" then
    if i.fcstDate = targetTmn ∧ st.tmnFound = false then
      { st with r := { st.r with tmn := i.fcstValue }, tmnFound := true }
    else st
  else if i.category = "TMX" then
    if i.fcstDate = targetTmx ∧ st.tmxFound = false then
      { st with r := { st.r with tmx := i.fcstValue }, tmxFound := true }
    else st
  else st

/-- The forecast-parsing block (lines 544-607).  `forecastTimeStr` is
always `"2300"` in the source (line 461), so both target dates resolve to
tomorrow's date string.  The `tmx_found` diagnostic at line 607
interpolates the undefined name `tmx_candidates`, so the not-found branch
raises `NameError`, modelled as `PyErr.other`. -/
def forecastPhase (todayS tomorrowS : String) (r : WData)
    (foreItems : List WItem) : Except PyErr WData :=
  let forecastTimeStr := "2300"
  let targetTmn := if forecastTimeStr = "2300" then tomorrowS else todayS
  let targetTmx := if forecastTimeStr = "2300" then tomorrowS else todayS
  let st := foreItems.foldl (fStep todayS tomorrowS targetTmn targetTmx)
    ⟨r, "0000", "", false, false⟩
  if st.tmxFound then .ok st.r
  else .error (.other "name 'tmx_candidates' is not defined")

/-- The whole `try` body of `get_weather`, as an `Except` computation. -/
def weatherCore (cur fore : WFetch) (todayS tomorrowS : String) :
    Except PyErr WData :=
  match cur with
  | .transportError m => .error (.other m)
  | .httpStatusError m => .error (.httpError m)
  | .badJson => .error .valueError
  | .ok shape =>
    match normalizeItems shape with
    | none => .error .valueError
    | some curItems =>
      match fore with
      | .transportError m => .error (.other m)
      | .httpStatusError m => .error (.httpError m)
      | .badJson => .error .valueError
      | .ok fshape =>
        match normalizeItems fshape with
        | none => .ok (parseCurrent curItems initResult)
        | some foreItems =>
          forecastPhase todayS tomorrowS (parseCurrent curItems initResult) foreItems

/-- `get_weather`: the `try` body plus the three `except` clauses
(lines 617-623). -/
def get_weather (campus : String) (cur fore : WFetch)
    (baseDate baseTime forecastDate todayS tomorrowS : String) : WOut :=
  match weatherCore cur fore todayS tomorrowS with
  | .ok r =>
    .success ⟨campus, baseDate ++ " " ++ take2 baseTime,
      forecastDate ++ " " ++ take2 "2300", r⟩
  | .error (.httpError m) => .error ("날씨 API 서버 에러가 발생했습니다: " ++ m)
  | .error .valueError => .error "날씨 API로부터 받은 데이터가 올바른 JSON 형식이 아닙니다."
  | .error (.other m) => .error ("알 수 없는 에러가 발생했습니다: " ++ m)

/-! ## Timetable parameter builder (`search_timetable` lines 627-649)

`full_params` is a Python dict: modelled as an association list in
insertion order, with `dict.update` replacing values of existing keys in
place and appending new keys.  Request fields are modelled as strings
(Pydantic's `Union[str, int]` values are only forwarded). -/

structure SearchRequest where
  year : String
  semester : String
  campus : String
  dept_code : String
  keyword : String
  gubun : String
  professor : String
  days : List (String × String)
  times : List (String × String)

def dayKeys : List String := ["d1", "d2", "d3", "d4", "d5", "d6"]

def timeKeys : List String :=
  ["t1", "t2", "t3", "t4", "t5", "t6", "t7", "t8", "t9", "t10", "t11", "t12"]

/-- The `full_params` literal: fixed identifiers, caller fields, and the
dict comprehensions defaulting `d1..d6` and `t1..t12` to `"N"`. -/
def baseTimetableParams (req : SearchRequest) : List (String × String) :=
  [("mName", "getDataLssnLista"), ("cName", "hufs.stu1.STU1_C009"),
   ("org_sect", "A"), ("ledg_year", req.year), ("ledg_sessn", req.semester),
   ("campus", req.campus), ("crs_strct_cd", req.dept_code),
   ("gubun", req.gubun), ("subjt_nm", req.keyword), ("won", ""),
   ("cyber", ""), ("emp_nm", req.professor)]
  ++ dayKeys.map (fun k => (k, "N")) ++ timeKeys.map (fun k => (k, "N"))

/-- `d[k] = v` on a dict: replace in place when the key exists, else
append. -/
def setKey (d : List (String × String)) (k v : String) : List (String × String) :=
  if d.any (fun p => p.1 == k) then
    d.map (fun p => if p.1 == k then (k, v) else p)
  else d ++ [(k, v)]

/-- `d.update(u)`. -/
def dictUpdate (d u : List (String × String)) : List (String × String) :=
  u.foldl (fun acc p => setKey acc p.1 p.2) d

/-- `full_params` after the two conditional `update` calls
(`if req.days: ...`, `if req.times: ...`). -/
def fullTimetableParams (req : SearchRequest) : List (String × String) :=
  let p0 := baseTimetableParams req
  let p1 := if req.days.isEmpty then p0 else dictUpdate p0 req.days
  if req.times.isEmpty then p1 else dictUpdate p1 req.times

def lookupKey (d : List (String × String)) (k : String) : Option String :=
  (d.find? (fun p => p.1 == k)).map (fun p => p.2)

/-! ## Notice merge-and-sort (`_get_common_data` lines 372-383)

`sorted(general + haksa, key=lambda x: x.get('date', '0000-00-00'),
reverse=True)`: a stable descending sort on the date string, records
without a date keyed by the `'0000-00-00'` sentinel.  Python's stable
descending sort is insertion with "insert before the first element whose
key is not greater". -/

def noticeKey (n : NoticeRec) : String :=
  match n.date with
  | none => "0000-00-00"
  | some d => d

/-- Python's string `<`: lexicographic comparison of code points. -/
def charListLt : List Char → List Char → Bool
  | _, [] => false
  | [], _ :: _ => true
  | a :: as, b :: bs =>
    if a.toNat < b.toNat then true
    else if b.toNat < a.toNat then false
    else charListLt as bs

def strLtB (a b : String) : Bool := charListLt a.data b.data

def insertDescNotice (x : NoticeRec) : List NoticeRec → List NoticeRec
  | [] => [x]
  | y :: ys =>
    if strLtB (noticeKey x) (noticeKey y) then y :: insertDescNotice x ys
    else x :: y :: ys

def sortNoticesDesc : List NoticeRec → List NoticeRec
  | [] => []
  | x :: xs => insertDescNotice x (sortNoticesDesc xs)

/-- The merge of the two boards' notices performed by `_get_common_data`. -/
def mergeSortedNotices (general haksa : List NoticeRec) : List NoticeRec :=
  sortNoticesDesc (general ++ haksa)

/-! ## Claim C1: degrade-to-empty extractors -/

/-- **C1.** Every outcome of an upstream fetch leaves each of the three
degrade-to-empty extractors total: on a transport error, a non-2xx status,
or (for the schedule) a missing calendar container, the extractor returns
its type's empty value (`{}` for the schedule, `[]` for notices and meals),
and in every case its result is either that empty value or the pure
extraction of the fetched document — no exception or error response ever
reaches the caller (totality of the Lean functions). -/
theorem c1_extractors_degrade_to_empty :
    (crawl_schedule .transportError = emptyScheduleDates ∧
      crawl_schedule .httpStatusError = emptyScheduleDates ∧
      crawl_schedule (.ok none) = emptyScheduleDates) ∧
    (∀ o, crawl_schedule o = emptyScheduleDates ∨
      ∃ items, o = .ok (some items) ∧ crawl_schedule o = extract_schedule_dates items) ∧
    (crawl_notices .transportError = [] ∧ crawl_notices .httpStatusError = []) ∧
    (∀ o, crawl_notices o = [] ∨
      ∃ rows, o = .ok rows ∧ crawl_notices o = processNoticeRows rows) ∧
    (∀ cp today, crawl_meals_by_campus cp today .transportError = [] ∧
      crawl_meals_by_campus cp today .httpStatusError = []) ∧
    (∀ cp today o, crawl_meals_by_campus cp today o = [] ∨
      ∃ rows, o = .ok rows ∧ crawl_meals_by_campus cp today o = parseMealRows cp rows) := by
  refine ⟨⟨rfl, rfl, rfl⟩, ?_, ⟨rfl, rfl⟩, ?_, fun cp today => ⟨rfl, rfl⟩, ?_⟩
  · intro o
    match o with
    | .transportError => exact Or.inl rfl
    | .httpStatusError => exact Or.inl rfl
    | .ok none => exact Or.inl rfl
    | .ok (some items) => exact Or.inr ⟨items, rfl, rfl⟩
  · intro o
    match o with
    | .transportError => exact Or.inl rfl
    | .httpStatusError => exact Or.inl rfl
    | .ok rows => exact Or.inr ⟨rows, rfl, rfl⟩
  · intro cp today o
    match o with
    | .transportError => exact Or.inl rfl
    | .httpStatusError => exact Or.inl rfl
    | .ok rows => exact Or.inr ⟨rows, rfl, rfl⟩

/-! ## Claim C2: the notice-row cap -/

/-- The notice list as claim C2 words it: malformed rows do not count
toward the cap (keep every valid row, then cap at 10). -/
def claimNoticeRows (rows : List NoticeRow) : List NoticeRec :=
  (((rows.filter (fun r => !r.pinned)).filterMap rowToNotice).take 10)

/-- The amended reading: only the first 10 non-pinned rows are examined,
and the valid ones among them are returned. -/
def amendedNoticeRows (rows : List NoticeRow) : List NoticeRec :=
  ((rows.filter (fun r => !r.pinned)).take 10).filterMap rowToNotice

theorem foldl_noticeAppendStep (l : List NoticeRow) (acc : List NoticeRec) :
    l.foldl noticeAppendStep acc = acc ++ l.filterMap rowToNotice := by
  induction l generalizing acc with
  | nil => simp
  | cons x xs ih =>
    simp only [List.foldl_cons, List.filterMap_cons]
    cases hfx : rowToNotice x with
    | none =>
      have h1 : noticeAppendStep acc x = acc := by
        unfold noticeAppendStep
        rw [hfx]
      rw [h1, ih]
    | some b =>
      have h1 : noticeAppendStep acc x = acc ++ [b] := by
        unfold noticeAppendStep
        rw [hfx]
      rw [h1, ih, List.append_assoc]
      rfl

/-- A non-pinned row within the first ten, with all three required parts. -/
def cxValidRow (href : String) : NoticeRow :=
  ⟨false, some ⟨some ⟨href, "title", none, false⟩⟩, some "2024.01.01"⟩

/-- A non-pinned row with no subject cell (malformed). -/
def cxBadRow : NoticeRow := ⟨false, none, some "2024.01.01"⟩

/-- Eleven non-pinned rows: one malformed, then ten valid ones. -/
def cxRows : List NoticeRow :=
  [cxBadRow, cxValidRow "/a", cxValidRow "/b", cxValidRow "/c", cxValidRow "/d",
   cxValidRow "/e", cxValidRow "/f", cxValidRow "/g", cxValidRow "/h",
   cxValidRow "/i", cxValidRow "/j"]

/-- **C2 counterexample.** On a board with one malformed row followed by
ten valid rows, the code returns only 9 notices (the malformed row consumed
a slot of the `[:10]` slice), while the claim ("skipped rows do not count
toward the cap, exactly the valid rows up to 10") demands all 10. -/
theorem c2_counterexample :
    (processNoticeRows cxRows).length = 9 ∧
    (claimNoticeRows cxRows).length = 10 ∧
    processNoticeRows cxRows ≠ claimNoticeRows cxRows := by
  refine ⟨?_, ?_, ?_⟩ <;> decide

/-- **C2 amended.** `crawl_notices` examines only the first 10 non-pinned
rows (so malformed rows inside that window do count toward the cap) and
returns exactly the valid rows among them, in document order, at most 10,
each valid row contributing a link of the form `HUFS_DOMAIN ++ href`. -/
theorem c2_amended_notices (rows : List NoticeRow) :
    crawl_notices (.ok rows) = amendedNoticeRows rows ∧
    (crawl_notices (.ok rows)).length ≤ 10 ∧
    ∀ n ∈ crawl_notices (.ok rows),
      ∃ r, r ∈ (rows.filter (fun r => !r.pinned)).take 10 ∧
        rowToNotice r = some n ∧
        ∃ cell a, r.subjectCell = some cell ∧ cell.anchor = some a ∧
          n.link = HUFS_DOMAIN ++ a.href := by
  have heq : crawl_notices (.ok rows) = amendedNoticeRows rows := by
    show processNoticeRows rows = amendedNoticeRows rows
    unfold processNoticeRows amendedNoticeRows
    simpa using foldl_noticeAppendStep ((rows.filter (fun r => !r.pinned)).take 10) []
  refine ⟨heq, ?_, ?_⟩
  · rw [heq]
    calc (amendedNoticeRows rows).length
        ≤ ((rows.filter (fun r => !r.pinned)).take 10).length :=
          List.length_filterMap_le _ _
      _ ≤ 10 := List.length_take_le _ _
  · intro n hn
    rw [heq] at hn
    obtain ⟨r, hr, hrn⟩ := List.mem_filterMap.mp hn
    refine ⟨r, hr, hrn, ?_⟩
    obtain ⟨pinned, sc, dt⟩ := r
    match sc, dt with
    | none, _ => simp [rowToNotice] at hrn
    | some cell, none => simp [rowToNotice] at hrn
    | some cell, some dateText =>
      obtain ⟨anc⟩ := cell
      match anc with
      | none => simp [rowToNotice] at hrn
      | some a =>
        refine ⟨⟨some a⟩, a, rfl, rfl, ?_⟩
        simp only [rowToNotice] at hrn
        injection hrn with h
        rw [← h]

/-! ## Claim C7: schedule date-segment policy -/

/-- `date_parts[0]` after the split-and-strip. -/
def firstTildeSegment (t : String) : String := ((splitTilde t).map trimS).headD ""

/-- `date_parts[-1]` after the split-and-strip. -/
def lastTildeSegment (t : String) : String := ((splitTilde t).map trimS).getLastD ""

/-- **C7 counterexample.** For the range text
`"2024.03.02 ~ 2024.03.08"` with a first-semester-start label, the code
stores the *first* segment under `first_start`, while the claim says the
candidate is always the *last* `~`-segment. -/
theorem c7_counterexample :
    extract_schedule_dates [([" 2024.03.02 ~ 2024.03.08 "], ["제1학기 개강"])]
      = ⟨some "2024.03.02", none, none, none⟩ ∧
    lastTildeSegment " 2024.03.02 ~ 2024.03.08 " = "2024.03.08" ∧
    (some "2024.03.02" : Option String) ≠ some "2024.03.08" := by
  refine ⟨?_, ?_, ?_⟩ <;> decide

/-- The four milestone keys of the schedule dictionary. -/
inductive MilestoneKey where
  | firstStart
  | firstEnd
  | secondStart
  | secondEnd
deriving DecidableEq, Repr

/-- Which milestone key (if any) an event label selects, testing the fixed
Korean substrings in the code's chain order. -/
def classifyEvent (ev : String) : Option MilestoneKey :=
  if strHas ev "제1학기" && (strHas ev "개강" || strHas ev "학기개시일") then some .firstStart
  else if strHas ev "제1학기 기말시험" then some .firstEnd
  else if strHas ev "제2학기" && (strHas ev "개강" || strHas ev "학기개시일") then some .secondStart
  else if strHas ev "제2학기 기말시험" then some .secondEnd
  else none

/-- The candidate date string per milestone key: the *first* stripped
segment for the two start keys, the *last* for the two end keys. -/
def candidateFor : MilestoneKey → String → String
  | .firstStart, t => firstTildeSegment t
  | .secondStart, t => firstTildeSegment t
  | .firstEnd, t => lastTildeSegment t
  | .secondEnd, t => lastTildeSegment t

def applyMilestone (sd : ScheduleDates) : MilestoneKey → String → ScheduleDates
  | .firstStart, v => { sd with first_start := some v }
  | .firstEnd, v => { sd with first_end := some v }
  | .secondStart, v => { sd with second_start := some v }
  | .secondEnd, v => { sd with second_end := some v }

/-- The per-pair step as the amended claim words it: classify the label,
then store the key-appropriate segment. -/
def schedStepSpec (sd : ScheduleDates) (p : String × String) : ScheduleDates :=
  match classifyEvent p.2 with
  | none => sd
  | some k => applyMilestone sd k (candidateFor k p.1)

def extract_schedule_dates_spec (items : List (List String × List String)) : ScheduleDates :=
  items.foldl (fun sd item => (item.1.zip item.2).foldl schedStepSpec sd) emptyScheduleDates

theorem schedStep_eq_spec (sd : ScheduleDates) (p : String × String) :
    schedStep sd p = schedStepSpec sd p := by
  unfold schedStep schedStepSpec classifyEvent
  split_ifs <;> rfl

/-- **C7 amended.** For every `(date, event-label)` pair, the stored
candidate is the first stripped `~`-segment for the two semester-*start*
keys and the last stripped segment for the two semester-*end* keys, the key
being selected by substring containment of the fixed Korean markers in the
code's chain order. -/
theorem c7_amended_schedule_dates (items : List (List String × List String)) :
    extract_schedule_dates items = extract_schedule_dates_spec items := by
  unfold extract_schedule_dates extract_schedule_dates_spec
  have hf : schedStep = schedStepSpec :=
    funext fun sd => funext fun p => schedStep_eq_spec sd p
  rw [hf]

/-! ## Claim C8: notice merge and descending sort -/

theorem charListLt_asymm :
    ∀ as bs, charListLt as bs = true → charListLt bs as = false := by
  intro as
  induction as with
  | nil =>
    intro bs h
    cases bs with
    | nil => simp [charListLt] at h
    | cons b bs => rfl
  | cons a as ih =>
    intro bs h
    cases bs with
    | nil => simp [charListLt] at h
    | cons b bs =>
      unfold charListLt at h ⊢
      by_cases h1 : a.toNat < b.toNat
      · rw [if_neg (by omega), if_pos h1]
      · rw [if_neg h1] at h
        by_cases h2 : b.toNat < a.toNat
        · rw [if_pos h2] at h
          cases h
        · rw [if_neg h2] at h
          rw [if_neg h2, if_neg h1]
          exact ih bs h

theorem charListLt_false_trans :
    ∀ as bs cs, charListLt as bs = false → charListLt bs cs = false →
      charListLt as cs = false := by
  intro as
  induction as with
  | nil =>
    intro bs cs h1 h2
    cases bs with
    | nil =>
      cases cs with
      | nil => rfl
      | cons c cs => exact h2
    | cons b bs => simp [charListLt] at h1
  | cons a as ih =>
    intro bs cs h1 h2
    cases cs with
    | nil => rfl
    | cons c cs =>
      cases bs with
      | nil => simp [charListLt] at h2
      | cons b bs =>
        unfold charListLt at h1 h2 ⊢
        by_cases hab : a.toNat < b.toNat
        · rw [if_pos hab] at h1
          cases h1
        · rw [if_neg hab] at h1
          by_cases hbc : b.toNat < c.toNat
          · rw [if_pos hbc] at h2
            cases h2
          · rw [if_neg hbc] at h2
            by_cases hba : b.toNat < a.toNat
            · -- b < a and c ≤ b, hence c < a
              rw [if_neg (by omega), if_pos (by omega)]
            · rw [if_neg hba] at h1
              by_cases hcb : c.toNat < b.toNat
              · -- a = b and c < b, hence c < a
                rw [if_neg (by omega), if_pos (by omega)]
              · rw [if_neg hcb] at h2
                rw [if_neg (by omega), if_neg (by omega)]
                exact ih bs cs h1 h2

theorem strLtB_asymm (a b : String) (h : strLtB a b = true) : strLtB b a = false :=
  charListLt_asymm a.data b.data h

theorem strLtB_false_trans (a b c : String) (h1 : strLtB a b = false)
    (h2 : strLtB b c = false) : strLtB a c = false :=
  charListLt_false_trans a.data b.data c.data h1 h2

theorem insertDescNotice_perm (x : NoticeRec) (l : List NoticeRec) :
    (insertDescNotice x l).Perm (x :: l) := by
  induction l with
  | nil => exact List.Perm.refl _
  | cons y ys ih =>
    unfold insertDescNotice
    split_ifs with h
    · exact (ih.cons y).trans (List.Perm.swap x y ys)
    · exact List.Perm.refl _

theorem sortNoticesDesc_perm (l : List NoticeRec) : (sortNoticesDesc l).Perm l := by
  induction l with
  | nil => exact List.Perm.refl _
  | cons x xs ih =>
    exact (insertDescNotice_perm x (sortNoticesDesc xs)).trans (ih.cons x)

theorem insertDescNotice_sorted (x : NoticeRec) (l : List NoticeRec)
    (h : l.Pairwise (fun a b => strLtB (noticeKey a) (noticeKey b) = false)) :
    (insertDescNotice x l).Pairwise
      (fun a b => strLtB (noticeKey a) (noticeKey b) = false) := by
  induction l with
  | nil => simp [insertDescNotice]
  | cons y ys ih =>
    obtain ⟨hy, hys⟩ := List.pairwise_cons.mp h
    unfold insertDescNotice
    split_ifs with hlt
    · refine List.pairwise_cons.mpr ⟨?_, ih hys⟩
      intro b hb
      have hmem : b ∈ x :: ys := (insertDescNotice_perm x ys).mem_iff.mp hb
      rcases List.mem_cons.mp hmem with rfl | hbys
      · exact strLtB_asymm _ _ hlt
      · exact hy b hbys
    · have hlt' : strLtB (noticeKey x) (noticeKey y) = false :=
        Bool.not_eq_true _ ▸ Bool.of_not_eq_true hlt
      refine List.pairwise_cons.mpr ⟨?_, h⟩
      intro b hb
      rcases List.mem_cons.mp hb with rfl | hbys
      · exact hlt'
      · exact strLtB_false_trans _ _ _ hlt' (hy b hbys)

theorem sortNoticesDesc_sorted (l : List NoticeRec) :
    (sortNoticesDesc l).Pairwise
      (fun a b => strLtB (noticeKey a) (noticeKey b) = false) := by
  induction l with
  | nil => simp [sortNoticesDesc]
  | cons x xs ih => exact insertDescNotice_sorted x (sortNoticesDesc xs) ih

/-- **C8.** The aggregator's notices output is a permutation of the
concatenation of the two boards' sequences, sorted by the date string in
descending lexicographic order (no earlier element's key is exceeded by a
later one), where a record's sort key is its date string and a record
missing its date is keyed by the minimal sentinel `"0000-00-00"`; on the
claim's concrete example the output order is
`["2024.03.10", "2024.03.01", "2024.02.15"]`. -/
theorem c8_notice_merge_sort :
    (∀ general haksa,
      (mergeSortedNotices general haksa).Perm (general ++ haksa) ∧
      (mergeSortedNotices general haksa).Pairwise
        (fun a b => strLtB (noticeKey a) (noticeKey b) = false)) ∧
    (∀ n : NoticeRec, n.date = none → noticeKey n = "0000-00-00") ∧
    (∀ n : NoticeRec, ∀ d, n.date = some d → noticeKey n = d) ∧
    (mergeSortedNotices
        [⟨some "2024.03.01", "g1", "/g1"⟩, ⟨some "2024.02.15", "g2", "/g2"⟩]
        [⟨some "2024.03.10", "h1", "/h1"⟩]).map (fun n => n.date)
      = [some "2024.03.10", some "2024.03.01", some "2024.02.15"] := by
  refine ⟨?_, ?_, ?_, ?_⟩
  · intro general haksa
    exact ⟨sortNoticesDesc_perm _, sortNoticesDesc_sorted _⟩
  · intro n hn
    unfold noticeKey
    rw [hn]
  · intro n d hn
    unfold noticeKey
    rw [hn]
  · decide

/-! ## Claim C9: timetable day/period flag overlay -/

theorem lookupKey_nil (k : String) : lookupKey [] k = none := rfl

theorem lookupKey_cons (p : String × String) (ps : List (String × String))
    (k : String) :
    lookupKey (p :: ps) k = if p.1 == k then some p.2 else lookupKey ps k := by
  unfold lookupKey
  cases h : (p.1 == k) <;> simp [List.find?_cons, h]

theorem lookupKey_mapSet_ne (ps : List (String × String)) (k v k' : String)
    (h : k' ≠ k) :
    lookupKey (ps.map (fun q => if q.1 == k then (k, v) else q)) k'
      = lookupKey ps k' := by
  induction ps with
  | nil => rfl
  | cons q qs ih =>
    rw [List.map_cons, lookupKey_cons, lookupKey_cons]
    by_cases hq : q.1 = k
    · have hfq : (if q.1 == k then (k, v) else q) = (k, v) := by simp [hq]
      rw [hfq]
      have h1 : ((k, v).1 == k') = false := by simp [Ne.symm h]
      have h2 : (q.1 == k') = false := by simp [hq, Ne.symm h]
      rw [h1, h2]
      exact ih
    · have hfq : (if q.1 == k then (k, v) else q) = q := by simp [hq]
      rw [hfq]
      cases h1 : (q.1 == k') with
      | true => rfl
      | false => exact ih

theorem lookupKey_mapSet_self (ps : List (String × String)) (k v : String)
    (h : ps.any (fun q => q.1 == k) = true) :
    lookupKey (ps.map (fun q => if q.1 == k then (k, v) else q)) k = some v := by
  induction ps with
  | nil => simp at h
  | cons q qs ih =>
    rw [List.map_cons, lookupKey_cons]
    by_cases hq : q.1 = k
    · have hfq : (if q.1 == k then (k, v) else q) = (k, v) := by simp [hq]
      rw [hfq]
      have h1 : ((k, v).1 == k) = true := by simp
      rw [h1]
      rfl
    · have hfq : (if q.1 == k then (k, v) else q) = q := by simp [hq]
      rw [hfq]
      have h1 : (q.1 == k) = false := by simp [hq]
      rw [h1]
      apply ih
      rw [List.any_cons, h1] at h
      simpa using h

theorem lookupKey_append_single (d : List (String × String)) (k v k' : String) :
    lookupKey (d ++ [(k, v)]) k'
      = match lookupKey d k' with
        | some w => some w
        | none => if k' = k then some v else none := by
  induction d with
  | nil =>
    rw [List.nil_append, lookupKey_cons, lookupKey_nil]
    by_cases h : k' = k
    · have h1 : ((k, v).1 == k') = true := by simp [h]
      rw [h1, if_pos h]
      rfl
    · have h1 : ((k, v).1 == k') = false := by simp [Ne.symm h]
      rw [h1, if_neg h]
      rfl
  | cons q qs ih =>
    rw [List.cons_append, lookupKey_cons, lookupKey_cons]
    cases h1 : (q.1 == k') with
    | true => rfl
    | false => exact ih

theorem lookupKey_eq_none_of_any_false (d : List (String × String)) (k : String)
    (h : d.any (fun p => p.1 == k) = false) : lookupKey d k = none := by
  induction d with
  | nil => rfl
  | cons q qs ih =>
    rw [List.any_cons] at h
    have h1 : (q.1 == k) = false := by
      cases hq : (q.1 == k)
      · rfl
      · rw [hq] at h
        simp at h
    have h2 : qs.any (fun p => p.1 == k) = false := by
      rw [h1] at h
      simpa using h
    rw [lookupKey_cons, h1]
    exact ih h2

theorem lookupKey_setKey (d : List (String × String)) (k v k' : String) :
    lookupKey (setKey d k v) k' = if k' = k then some v else lookupKey d k' := by
  unfold setKey
  cases hany : (d.any (fun p => p.1 == k)) with
  | true =>
    show lookupKey (d.map (fun p => if p.1 == k then (k, v) else p)) k'
      = if k' = k then some v else lookupKey d k'
    by_cases hk : k' = k
    · rw [if_pos hk, hk]
      exact lookupKey_mapSet_self d k v hany
    · rw [if_neg hk]
      exact lookupKey_mapSet_ne d k v k' hk
  | false =>
    show lookupKey (d ++ [(k, v)]) k' = if k' = k then some v else lookupKey d k'
    rw [lookupKey_append_single]
    by_cases hk : k' = k
    · have hnone : lookupKey d k' = none := by
        rw [hk]
        exact lookupKey_eq_none_of_any_false d k hany
      rw [hnone]
    · cases hkd : lookupKey d k' with
      | some w =>
        show some w = if k' = k then some v else some w
        rw [if_neg hk]
      | none =>
        show (if k' = k then some v else none) = if k' = k then some v else none
        rfl

theorem lookupKey_dictUpdate_not_mem (u : List (String × String)) :
    ∀ (d : List (String × String)) (k : String),
      (∀ p ∈ u, p.1 ≠ k) → lookupKey (dictUpdate d u) k = lookupKey d k := by
  induction u with
  | nil => intro d k _; rfl
  | cons p ps ih =>
    intro d k hk
    show lookupKey (dictUpdate (setKey d p.1 p.2) ps) k = lookupKey d k
    rw [ih (setKey d p.1 p.2) k (fun q hq => hk q (List.mem_cons_of_mem _ hq))]
    rw [lookupKey_setKey]
    rw [if_neg (fun h => hk p (List.mem_cons_self _ _) h.symm)]

theorem lookupKey_dictUpdate (u : List (String × String)) :
    ∀ (d : List (String × String)) (k : String),
      ((u.map Prod.fst).Nodup) →
      lookupKey (dictUpdate d u) k
        = match lookupKey u k with
          | some v => some v
          | none => lookupKey d k := by
  induction u with
  | nil => intro d k _; rfl
  | cons p ps ih =>
    intro d k hu
    obtain ⟨hp, hps⟩ := List.pairwise_cons.mp hu
    show lookupKey (dictUpdate (setKey d p.1 p.2) ps) k = _
    rw [lookupKey_cons]
    by_cases hk : p.1 = k
    · have h1 : (p.1 == k) = true := by simp [hk]
      rw [h1]
      have hnotin : ∀ q ∈ ps, q.1 ≠ k := by
        intro q hq hqk
        exact hp q.1 (List.mem_map_of_mem Prod.fst hq) (by rw [hqk, hk])
      rw [lookupKey_dictUpdate_not_mem ps (setKey d p.1 p.2) k hnotin]
      rw [lookupKey_setKey]
      rw [if_pos hk.symm]
      rfl
    · have h1 : (p.1 == k) = false := by simp [hk]
      rw [h1]
      rw [ih (setKey d p.1 p.2) k hps]
      cases hps' : lookupKey ps k with
      | some v => rfl
      | none =>
        rw [lookupKey_setKey]
        rw [if_neg (fun h => hk h.symm)]
        rfl

theorem fullTimetableParams_eq (req : SearchRequest) :
    fullTimetableParams req
      = dictUpdate (dictUpdate (baseTimetableParams req) req.days) req.times := by
  have e1 : ∀ (d u : List (String × String)), u.isEmpty = true → dictUpdate d u = d := by
    intro d u hu
    cases u with
    | nil => rfl
    | cons p ps => simp at hu
  by_cases h1 : req.days.isEmpty <;> by_cases h2 : req.times.isEmpty <;>
    simp [fullTimetableParams, h1, h2, e1]

theorem lookupKey_base_flag (req : SearchRequest) (k : String)
    (hk : k ∈ dayKeys ++ timeKeys) :
    lookupKey (baseTimetableParams req) k = some "N" := by
  fin_cases hk <;> rfl

/-- **C9.** For every timetable search request whose `days`/`times`
mappings have distinct keys (they originate from Python dicts), the
submitted parameter set binds every one of the six day flags `d1..d6` and
the twelve period flags `t1..t12`: the bound value is the caller's `times`
entry if present, else the caller's `days` entry, else the default `"N"`. -/
theorem c9_timetable_flags (req : SearchRequest)
    (hd : (req.days.map Prod.fst).Nodup) (ht : (req.times.map Prod.fst).Nodup)
    (k : String) (hk : k ∈ dayKeys ++ timeKeys) :
    lookupKey (fullTimetableParams req) k
      = some ((match lookupKey req.times k with
               | some v => some v
               | none => lookupKey req.days k).getD "N") := by
  rw [fullTimetableParams_eq, lookupKey_dictUpdate req.times _ k ht]
  cases hts : lookupKey req.times k with
  | some v => rfl
  | none =>
    rw [lookupKey_dictUpdate req.days _ k hd]
    cases hds : lookupKey req.days k with
    | some v => rfl
    | none =>
      rw [lookupKey_base_flag req k hk]
      rfl

/-- The claim's concrete example request: `days = {"d1": "Y"}`, no
`times`. -/
def c9req : SearchRequest :=
  ⟨"2024", "1", "H1", "AAAA", "", "A", "", [("d1", "Y")], []⟩

/-- Witness for C9: on the example request, `d1` is `"Y"` and every other
flag is `"N"`. -/
theorem c9_timetable_flags_witness :
    lookupKey (fullTimetableParams c9req) "d1" = some "Y" ∧
    lookupKey (fullTimetableParams c9req) "d2" = some "N" ∧
    lookupKey (fullTimetableParams c9req) "d6" = some "N" ∧
    lookupKey (fullTimetableParams c9req) "t1" = some "N" ∧
    lookupKey (fullTimetableParams c9req) "t12" = some "N" := by
  refine ⟨?_, ?_, ?_, ?_, ?_⟩
  · rw [c9_timetable_flags c9req (by decide) (by decide) "d1" (by decide)]
    rfl
  · decide
  · decide
  · decide
  · decide

/-! ## Weather lemmas -/

/-- `forecastPhase` with its constant `"2300"` comparison reduced: both
targets are tomorrow's date. -/
theorem forecastPhase_eq (todayS tomorrowS : String) (r : WData)
    (foreItems : List WItem) :
    forecastPhase todayS tomorrowS r foreItems
      = (if (foreItems.foldl (fStep todayS tomorrowS tomorrowS tomorrowS)
              ⟨r, "0000", "", false, false⟩).tmxFound
         then .ok (foreItems.foldl (fStep todayS tomorrowS tomorrowS tomorrowS)
              ⟨r, "0000", "", false, false⟩).r
         else .error (.other "name 'tmx_candidates' is not defined")) := rfl

theorem currentStep_keeps_forecast (r : WData) (i : WItem) :
    (currentStep r i).sky = r.sky ∧ (currentStep r i).tmn = r.tmn ∧
    (currentStep r i).tmx = r.tmx := by
  unfold currentStep
  split_ifs <;> exact ⟨rfl, rfl, rfl⟩

theorem parseCurrent_keeps_forecast (items : List WItem) :
    ∀ r, (parseCurrent items r).sky = r.sky ∧ (parseCurrent items r).tmn = r.tmn ∧
      (parseCurrent items r).tmx = r.tmx := by
  induction items with
  | nil => exact fun r => ⟨rfl, rfl, rfl⟩
  | cons i is ih =>
    intro r
    obtain ⟨a, b, c⟩ := ih (currentStep r i)
    obtain ⟨a', b', c'⟩ := currentStep_keeps_forecast r i
    exact ⟨a.trans a', b.trans b', c.trans c'⟩

theorem currentStep_temp_ne (r : WData) (i : WItem) (h : i.category ≠ "T1H") :
    (currentStep r i).temp = r.temp := by
  unfold currentStep
  split_ifs <;> first | rfl | exact absurd (by assumption) h

theorem currentStep_humidity_ne (r : WData) (i : WItem) (h : i.category ≠ "REH") :
    (currentStep r i).humidity = r.humidity := by
  unfold currentStep
  split_ifs <;> first | rfl | exact absurd (by assumption) h

theorem currentStep_rainType_ne (r : WData) (i : WItem) (h : i.category ≠ "PTY") :
    (currentStep r i).rainType = r.rainType := by
  unfold currentStep
  split_ifs <;> first | rfl | exact absurd (by assumption) h

theorem parseCurrent_temp_ne (items : List WItem)
    (h : ∀ i ∈ items, i.category ≠ "T1H") :
    ∀ r, (parseCurrent items r).temp = r.temp := by
  induction items with
  | nil => exact fun r => rfl
  | cons i is ih =>
    intro r
    have h1 := ih (fun j hj => h j (List.mem_cons_of_mem _ hj)) (currentStep r i)
    have h2 := currentStep_temp_ne r i (h i (List.mem_cons_self _ _))
    exact h1.trans h2

theorem parseCurrent_humidity_ne (items : List WItem)
    (h : ∀ i ∈ items, i.category ≠ "REH") :
    ∀ r, (parseCurrent items r).humidity = r.humidity := by
  induction items with
  | nil => exact fun r => rfl
  | cons i is ih =>
    intro r
    have h1 := ih (fun j hj => h j (List.mem_cons_of_mem _ hj)) (currentStep r i)
    have h2 := currentStep_humidity_ne r i (h i (List.mem_cons_self _ _))
    exact h1.trans h2

theorem parseCurrent_rainType_ne (items : List WItem)
    (h : ∀ i ∈ items, i.category ≠ "PTY") :
    ∀ r, (parseCurrent items r).rainType = r.rainType := by
  induction items with
  | nil => exact fun r => rfl
  | cons i is ih =>
    intro r
    have h1 := ih (fun j hj => h j (List.mem_cons_of_mem _ hj)) (currentStep r i)
    have h2 := currentStep_rainType_ne r i (h i (List.mem_cons_self _ _))
    exact h1.trans h2

theorem fStep_keeps_current (ts tms t1 t2 : String) (st : FState) (i : WItem) :
    (fStep ts tms t1 t2 st i).r.temp = st.r.temp ∧
    (fStep ts tms t1 t2 st i).r.humidity = st.r.humidity ∧
    (fStep ts tms t1 t2 st i).r.rainType = st.r.rainType := by
  unfold fStep
  split_ifs <;> exact ⟨rfl, rfl, rfl⟩

theorem foldl_fStep_keeps_current (ts tms t1 t2 : String) (l : List WItem) :
    ∀ st : FState,
      (l.foldl (fStep ts tms t1 t2) st).r.temp = st.r.temp ∧
      (l.foldl (fStep ts tms t1 t2) st).r.humidity = st.r.humidity ∧
      (l.foldl (fStep ts tms t1 t2) st).r.rainType = st.r.rainType := by
  induction l with
  | nil => exact fun st => ⟨rfl, rfl, rfl⟩
  | cons i is ih =>
    intro st
    obtain ⟨a, b, c⟩ := ih (fStep ts tms t1 t2 st i)
    obtain ⟨a', b', c'⟩ := fStep_keeps_current ts tms t1 t2 st i
    exact ⟨a.trans a', b.trans b', c.trans c'⟩

theorem fStep_sky_ne (ts tms t1 t2 : String) (st : FState) (i : WItem)
    (h : i.category ≠ "SKY") :
    (fStep ts tms t1 t2 st i).r.sky = st.r.sky := by
  unfold fStep
  split_ifs <;> first | rfl | exact absurd (by assumption) h

theorem foldl_fStep_sky_ne (ts tms t1 t2 : String) (l : List WItem)
    (h : ∀ i ∈ l, i.category ≠ "SKY") :
    ∀ st : FState, (l.foldl (fStep ts tms t1 t2) st).r.sky = st.r.sky := by
  induction l with
  | nil => exact fun st => rfl
  | cons i is ih =>
    intro st
    have h1 := ih (fun j hj => h j (List.mem_cons_of_mem _ hj)) (fStep ts tms t1 t2 st i)
    have h2 := fStep_sky_ne ts tms t1 t2 st i (h i (List.mem_cons_self _ _))
    exact h1.trans h2

theorem fStep_tmn_ne (ts tms t1 t2 : String) (st : FState) (i : WItem)
    (h : ¬(i.category = "TMN" ∧ i.fcstDate = t1)) :
    (fStep ts tms t1 t2 st i).r.tmn = st.r.tmn ∧
    (fStep ts tms t1 t2 st i).tmnFound = st.tmnFound := by
  unfold fStep
  split_ifs <;>
    first
      | exact ⟨rfl, rfl⟩
      | exact absurd
          ⟨by assumption,
           (by assumption : i.fcstDate = t1 ∧ st.tmnFound = false).1⟩ h

theorem fStep_tmn_hit (ts tms t1 t2 : String) (st : FState) (i : WItem)
    (hc : i.category = "TMN") (hd : i.fcstDate = t1) (hf : st.tmnFound = false) :
    fStep ts tms t1 t2 st i
      = { st with r := { st.r with tmn := i.fcstValue }, tmnFound := true } := by
  unfold fStep
  rw [if_neg (by rw [hc]; decide), if_pos hc, if_pos ⟨hd, hf⟩]

theorem fStep_tmn_found (ts tms t1 t2 : String) (st : FState) (i : WItem)
    (h : st.tmnFound = true) :
    (fStep ts tms t1 t2 st i).r.tmn = st.r.tmn ∧
    (fStep ts tms t1 t2 st i).tmnFound = true := by
  unfold fStep
  split_ifs <;>
    first
      | exact ⟨rfl, h⟩
      | exact absurd
          ((by assumption : i.fcstDate = t1 ∧ st.tmnFound = false).2)
          (by rw [h]; decide)

theorem foldl_fStep_tmn_stable (ts tms t1 t2 : String) (l : List WItem) :
    ∀ st : FState, st.tmnFound = true →
      (l.foldl (fStep ts tms t1 t2) st).r.tmn = st.r.tmn ∧
      (l.foldl (fStep ts tms t1 t2) st).tmnFound = true := by
  induction l with
  | nil => exact fun st h => ⟨rfl, h⟩
  | cons i is ih =>
    intro st h
    obtain ⟨a', b'⟩ := fStep_tmn_found ts tms t1 t2 st i h
    obtain ⟨a, b⟩ := ih (fStep ts tms t1 t2 st i) b'
    exact ⟨a.trans a', b⟩

theorem foldl_fStep_tmn_char (ts tms t1 t2 : String) (l : List WItem) :
    ∀ st : FState, st.tmnFound = false →
      ((l.foldl (fStep ts tms t1 t2) st).r.tmn,
       (l.foldl (fStep ts tms t1 t2) st).tmnFound)
        = (match l.find? (fun i => i.category == "TMN" && i.fcstDate == t1) with
           | some i => (i.fcstValue, true)
           | none => (st.r.tmn, false)) := by
  induction l with
  | nil =>
    intro st h
    show (st.r.tmn, st.tmnFound) = (st.r.tmn, false)
    rw [h]
  | cons i is ih =>
    intro st h
    cases hp : (i.category == "TMN" && i.fcstDate == t1) with
    | true =>
      have hc : i.category = "TMN" ∧ i.fcstDate = t1 := by
        simpa [Bool.and_eq_true, beq_iff_eq] using hp
      simp only [List.find?_cons, hp, List.foldl_cons]
      rw [fStep_tmn_hit ts tms t1 t2 st i hc.1 hc.2 h]
      obtain ⟨h1, h2⟩ := foldl_fStep_tmn_stable ts tms t1 t2 is
        { st with r := { st.r with tmn := i.fcstValue }, tmnFound := true } rfl
      rw [Prod.mk.injEq]
      exact ⟨by rw [h1], h2⟩
    | false =>
      have hc : ¬(i.category = "TMN" ∧ i.fcstDate = t1) := by
        intro hcc
        simp [hcc.1, hcc.2] at hp
      simp only [List.find?_cons, hp, List.foldl_cons]
      obtain ⟨h1, h2⟩ := fStep_tmn_ne ts tms t1 t2 st i hc
      have := ih (fStep ts tms t1 t2 st i) (by rw [h2, h])
      rw [this]
      cases hfind : is.find? (fun i => i.category == "TMN" && i.fcstDate == t1) with
      | some j => rfl
      | none => rw [h1]

theorem fStep_tmx_ne (ts tms t1 t2 : String) (st : FState) (i : WItem)
    (h : ¬(i.category = "TMX" ∧ i.fcstDate = t2)) :
    (fStep ts tms t1 t2 st i).r.tmx = st.r.tmx ∧
    (fStep ts tms t1 t2 st i).tmxFound = st.tmxFound := by
  unfold fStep
  split_ifs <;>
    first
      | exact ⟨rfl, rfl⟩
      | exact absurd
          ⟨by assumption,
           (by assumption : i.fcstDate = t2 ∧ st.tmxFound = false).1⟩ h

theorem fStep_tmx_hit (ts tms t1 t2 : String) (st : FState) (i : WItem)
    (hc : i.category = "TMX") (hd : i.fcstDate = t2) (hf : st.tmxFound = false) :
    fStep ts tms t1 t2 st i
      = { st with r := { st.r with tmx := i.fcstValue }, tmxFound := true } := by
  unfold fStep
  rw [if_neg (by rw [hc]; decide), if_neg (by rw [hc]; decide), if_pos hc,
    if_pos ⟨hd, hf⟩]

theorem fStep_tmx_found (ts tms t1 t2 : String) (st : FState) (i : WItem)
    (h : st.tmxFound = true) :
    (fStep ts tms t1 t2 st i).r.tmx = st.r.tmx ∧
    (fStep ts tms t1 t2 st i).tmxFound = true := by
  unfold fStep
  split_ifs <;>
    first
      | exact ⟨rfl, h⟩
      | exact absurd
          ((by assumption : i.fcstDate = t2 ∧ st.tmxFound = false).2)
          (by rw [h]; decide)

theorem foldl_fStep_tmx_stable (ts tms t1 t2 : String) (l : List WItem) :
    ∀ st : FState, st.tmxFound = true →
      (l.foldl (fStep ts tms t1 t2) st).r.tmx = st.r.tmx ∧
      (l.foldl (fStep ts tms t1 t2) st).tmxFound = true := by
  induction l with
  | nil => exact fun st h => ⟨rfl, h⟩
  | cons i is ih =>
    intro st h
    obtain ⟨a', b'⟩ := fStep_tmx_found ts tms t1 t2 st i h
    obtain ⟨a, b⟩ := ih (fStep ts tms t1 t2 st i) b'
    exact ⟨a.trans a', b⟩

theorem foldl_fStep_tmx_char (ts tms t1 t2 : String) (l : List WItem) :
    ∀ st : FState, st.tmxFound = false →
      ((l.foldl (fStep ts tms t1 t2) st).r.tmx,
       (l.foldl (fStep ts tms t1 t2) st).tmxFound)
        = (match l.find? (fun i => i.category == "TMX" && i.fcstDate == t2) with
           | some i => (i.fcstValue, true)
           | none => (st.r.tmx, false)) := by
  induction l with
  | nil =>
    intro st h
    show (st.r.tmx, st.tmxFound) = (st.r.tmx, false)
    rw [h]
  | cons i is ih =>
    intro st h
    cases hp : (i.category == "TMX" && i.fcstDate == t2) with
    | true =>
      have hc : i.category = "TMX" ∧ i.fcstDate = t2 := by
        simpa [Bool.and_eq_true, beq_iff_eq] using hp
      simp only [List.find?_cons, hp, List.foldl_cons]
      rw [fStep_tmx_hit ts tms t1 t2 st i hc.1 hc.2 h]
      obtain ⟨h1, h2⟩ := foldl_fStep_tmx_stable ts tms t1 t2 is
        { st with r := { st.r with tmx := i.fcstValue }, tmxFound := true } rfl
      rw [Prod.mk.injEq]
      exact ⟨by rw [h1], h2⟩
    | false =>
      have hc : ¬(i.category = "TMX" ∧ i.fcstDate = t2) := by
        intro hcc
        simp [hcc.1, hcc.2] at hp
      simp only [List.find?_cons, hp, List.foldl_cons]
      obtain ⟨h1, h2⟩ := fStep_tmx_ne ts tms t1 t2 st i hc
      have := ih (fStep ts tms t1 t2 st i) (by rw [h2, h])
      rw [this]
      cases hfind : is.find? (fun i => i.category == "TMX" && i.fcstDate == t2) with
      | some j => rfl
      | none => rw [h1]

/-- Inversion of a successful `get_weather` run. -/
theorem get_weather_success_inv (campus : String) (cur fore : WFetch)
    (bd bt fd ts tms : String) (s : WSuccess)
    (h : get_weather campus cur fore bd bt fd ts tms = .success s) :
    weatherCore cur fore ts tms = .ok s.data := by
  unfold get_weather at h
  cases hw : weatherCore cur fore ts tms with
  | ok r =>
    rw [hw] at h
    injection h with h'
    rw [← h']
  | error e =>
    rw [hw] at h
    cases e <;> cases h

/-- Inversion of a successful `weatherCore` run: both fetches delivered a
body with the expected items structure (for the current call) and at least
a JSON body (for the forecast call). -/
theorem weatherCore_ok_inv (cur fore : WFetch) (ts tms : String) (r : WData)
    (h : weatherCore cur fore ts tms = .ok r) :
    (∃ shape items, cur = .ok shape ∧ normalizeItems shape = some items) ∧
    (∃ shape, fore = .ok shape) := by
  cases cur with
  | transportError m => simp [weatherCore] at h
  | httpStatusError m => simp [weatherCore] at h
  | badJson => simp [weatherCore] at h
  | ok shape =>
    cases hn : normalizeItems shape with
    | none => simp [weatherCore, hn] at h
    | some items =>
      refine ⟨⟨shape, items, rfl, hn⟩, ?_⟩
      cases fore with
      | ok fshape => exact ⟨fshape, rfl⟩
      | transportError m => simp [weatherCore, hn] at h
      | httpStatusError m => simp [weatherCore, hn] at h
      | badJson => simp [weatherCore, hn] at h

def WFetch.failed : WFetch → Bool
  | .ok _ => false
  | _ => true

/-! ## Claim C6: weather error tier -/

/-- **C6.** Whenever either upstream weather call fails (transport error,
non-2xx status, or a body that does not decode as JSON), `get_weather`
returns an error payload; and a success payload is returned only when both
upstream calls succeeded. -/
theorem c6_weather_error_tier (campus : String) (cur fore : WFetch)
    (baseDate baseTime forecastDate todayS tomorrowS : String) :
    ((cur.failed = true ∨ fore.failed = true) →
      ∃ m, get_weather campus cur fore baseDate baseTime forecastDate todayS tomorrowS
        = .error m) ∧
    (∀ s, get_weather campus cur fore baseDate baseTime forecastDate todayS tomorrowS
        = .success s → cur.failed = false ∧ fore.failed = false) := by
  constructor
  · intro hfail
    have herr : ∃ e, weatherCore cur fore todayS tomorrowS = .error e := by
      cases cur with
      | transportError m => exact ⟨.other m, rfl⟩
      | httpStatusError m => exact ⟨.httpError m, rfl⟩
      | badJson => exact ⟨.valueError, rfl⟩
      | ok shape =>
        have hff : fore.failed = true := by
          rcases hfail with h | h
          · simp [WFetch.failed] at h
          · exact h
        cases hn : normalizeItems shape with
        | none => exact ⟨.valueError, by simp [weatherCore, hn]⟩
        | some l =>
          cases fore with
          | ok fs => simp [WFetch.failed] at hff
          | transportError m => exact ⟨.other m, by simp [weatherCore, hn]⟩
          | httpStatusError m => exact ⟨.httpError m, by simp [weatherCore, hn]⟩
          | badJson => exact ⟨.valueError, by simp [weatherCore, hn]⟩
    obtain ⟨e, he⟩ := herr
    unfold get_weather
    rw [he]
    cases e with
    | httpError m => exact ⟨_, rfl⟩
    | valueError => exact ⟨_, rfl⟩
    | other m => exact ⟨_, rfl⟩
  · intro s hs
    have hw := get_weather_success_inv campus cur fore baseDate baseTime
      forecastDate todayS tomorrowS s hs
    obtain ⟨⟨shape, items, hc, -⟩, ⟨fshape, hf⟩⟩ :=
      weatherCore_ok_inv cur fore todayS tomorrowS s.data hw
    subst hc
    subst hf
    exact ⟨rfl, rfl⟩

/-- Witness for C6: a transport failure of the current-conditions call
surfaces as an error payload. -/
theorem c6_weather_error_tier_witness :
    ∃ m, get_weather "SEOUL" (.transportError "boom") (.ok (.many []))
      "20240115" "0700" "20240114" "20240115" "20240116" = .error m :=
  (c6_weather_error_tier "SEOUL" (.transportError "boom") (.ok (.many []))
    "20240115" "0700" "20240114" "20240115" "20240116").1 (Or.inl rfl)

/-! ## Claim C10: the TMX-not-found NameError path -/

/-- **C10.** Whenever both upstream calls deliver bodies with the expected
items structure but no forecast item is a TMX reading dated exactly the
target date (tomorrow's date string), `get_weather` returns the generic
error payload — the not-found diagnostic references the undefined name
`tmx_candidates`, and the resulting `NameError` is caught by the
`except Exception` handler — instead of a success payload with
`tmx = "-"`. -/
theorem c10_tmx_missing_error (campus : String) (cur fore : WFetch)
    (bd bt fd ts tms : String)
    (curShape : ItemsShape) (curItems : List WItem)
    (hc : cur = .ok curShape) (hcn : normalizeItems curShape = some curItems)
    (foreShape : ItemsShape) (foreItems : List WItem)
    (hf : fore = .ok foreShape) (hfn : normalizeItems foreShape = some foreItems)
    (hno : ∀ i ∈ foreItems, ¬(i.category = "TMX" ∧ i.fcstDate = tms)) :
    get_weather campus cur fore bd bt fd ts tms
      = .error "알 수 없는 에러가 발생했습니다: name 'tmx_candidates' is not defined" := by
  subst hc
  subst hf
  have hfind : foreItems.find? (fun i => i.category == "TMX" && i.fcstDate == tms)
      = none := by
    apply List.find?_eq_none.mpr
    intro i hi hcontra
    exact hno i hi (by simpa [Bool.and_eq_true, beq_iff_eq] using hcontra)
  have hchar := foldl_fStep_tmx_char ts tms tms tms foreItems
    ⟨parseCurrent curItems initResult, "0000", "", false, false⟩ rfl
  rw [hfind] at hchar
  have hfound : (foreItems.foldl (fStep ts tms tms tms)
      ⟨parseCurrent curItems initResult, "0000", "", false, false⟩).tmxFound
        = false :=
    congrArg Prod.snd hchar
  have hcore : weatherCore (.ok curShape) (.ok foreShape) ts tms
      = .error (.other "name 'tmx_candidates' is not defined") := by
    simp only [weatherCore, hcn, hfn, forecastPhase_eq]
    rw [if_neg (by rw [hfound]; decide)]
  unfold get_weather
  rw [hcore]
  rfl

/-- Witness for C10: empty item lists on both calls reach the NameError
path. -/
theorem c10_tmx_missing_error_witness :
    get_weather "SEOUL" (.ok (.many [])) (.ok (.many []))
      "20240115" "0700" "20240114" "20240115" "20240116"
      = .error "알 수 없는 에러가 발생했습니다: name 'tmx_candidates' is not defined" :=
  c10_tmx_missing_error "SEOUL" (.ok (.many [])) (.ok (.many []))
    "20240115" "0700" "20240114" "20240115" "20240116"
    (.many []) [] rfl rfl (.many []) [] rfl rfl
    (by intro i hi; cases hi)

/-! ## Claim C5: TMN/TMX target-date selection -/

/-- The item list the code would iterate, per fetch result. -/
def wItemsOf : WFetch → List WItem
  | .ok shape => (normalizeItems shape).getD []
  | _ => []

/-- The TMN/TMX selection as claim C5 words it: exact match on the target
date first, else the first candidate among today's and tomorrow's dates. -/
def claimSelectTm (cat target todayS tomorrowS : String) (items : List WItem) :
    Option String :=
  match items.find? (fun i => i.category == cat && i.fcstDate == target) with
  | some i => some i.fcstValue
  | none =>
    (items.find? (fun i => i.category == cat &&
      (i.fcstDate == todayS || i.fcstDate == tomorrowS))).map (fun i => i.fcstValue)

def c5foreItems : List WItem :=
  [⟨"TMN", "", "20240115", "0200", "3.0"⟩, ⟨"TMX", "", "20240116", "0200", "10.0"⟩]

/-- **C5 counterexample.** With a TMN item dated today only (target is
tomorrow), the code leaves `tmn = "-"`, while the claim's fallback would
select the today-dated candidate `"3.0"`. -/
theorem c5_counterexample :
    get_weather "SEOUL" (.ok (.many [])) (.ok (.many c5foreItems))
      "20240115" "0700" "20240114" "20240115" "20240116"
      = .success ⟨"SEOUL", "20240115 07", "20240114 23",
          ⟨"-", "-", "0", "-", "-", "10.0"⟩⟩ ∧
    claimSelectTm "TMN" "20240116" "20240115" "20240116" c5foreItems
      = some "3.0" ∧
    ("-" : String) ≠ "3.0" := by
  refine ⟨?_, ?_, ?_⟩ <;> decide

/-- **C5 amended.** In any successful run whose forecast response has the
expected items structure, `tmn` and `tmx` are taken from the *first*
TMN/TMX item whose forecast date exactly equals the target date
(tomorrow's date string, since the issuance anchor is always yesterday's
23:00); there is **no** fallback to other dates — with no exact TMN match
the field stays `"-"`, and with no exact TMX match no success payload is
produced at all (see C10). -/
theorem c5_amended_tm_selection (campus : String) (cur fore : WFetch)
    (bd bt fd ts tms : String) (s : WSuccess)
    (foreShape : ItemsShape) (foreItems : List WItem)
    (hf : fore = .ok foreShape) (hfn : normalizeItems foreShape = some foreItems)
    (hout : get_weather campus cur fore bd bt fd ts tms = .success s) :
    s.data.tmn
      = (match foreItems.find? (fun i => i.category == "TMN" && i.fcstDate == tms) with
         | some i => i.fcstValue
         | none => "-") ∧
    s.data.tmx
      = (match foreItems.find? (fun i => i.category == "TMX" && i.fcstDate == tms) with
         | some i => i.fcstValue
         | none => "-") := by
  subst hf
  have hw := get_weather_success_inv campus cur _ bd bt fd ts tms s hout
  obtain ⟨⟨shape, curItems, hc, hcn⟩, -⟩ :=
    weatherCore_ok_inv cur _ ts tms s.data hw
  subst hc
  simp only [weatherCore, hcn, hfn, forecastPhase_eq] at hw
  split_ifs at hw with hfound
  · injection hw with hw'
    have htmn := foldl_fStep_tmn_char ts tms tms tms foreItems
      ⟨parseCurrent curItems initResult, "0000", "", false, false⟩ rfl
    have htmx := foldl_fStep_tmx_char ts tms tms tms foreItems
      ⟨parseCurrent curItems initResult, "0000", "", false, false⟩ rfl
    have hkeep := parseCurrent_keeps_forecast curItems initResult
    constructor
    · rw [← hw']
      cases hfind : foreItems.find?
          (fun i => i.category == "TMN" && i.fcstDate == tms) with
      | some j =>
        rw [hfind] at htmn
        exact congrArg Prod.fst htmn
      | none =>
        rw [hfind] at htmn
        have h1 : (foreItems.foldl (fStep ts tms tms tms)
            ⟨parseCurrent curItems initResult, "0000", "", false, false⟩).r.tmn
              = (parseCurrent curItems initResult).tmn :=
          congrArg Prod.fst htmn
        rw [h1]
        exact hkeep.2.1
    · rw [← hw']
      cases hfind : foreItems.find?
          (fun i => i.category == "TMX" && i.fcstDate == tms) with
      | some j =>
        rw [hfind] at htmx
        exact congrArg Prod.fst htmx
      | none =>
        rw [hfind] at htmx
        have h2 : (foreItems.foldl (fStep ts tms tms tms)
            ⟨parseCurrent curItems initResult, "0000", "", false, false⟩).tmxFound
              = false :=
          congrArg Prod.snd htmx
        rw [hfound] at h2
        cases h2

def c5wItems : List WItem :=
  [⟨"TMN", "", "20240116", "0200", "2.0"⟩, ⟨"TMX", "", "20240116", "0200", "9.0"⟩]

/-- Witness for C5 amended: exact target-date TMN and TMX items are
selected. -/
theorem c5_amended_tm_selection_witness :
    get_weather "SEOUL" (.ok (.many [])) (.ok (.many c5wItems))
      "20240115" "0700" "20240114" "20240115" "20240116"
      = .success ⟨"SEOUL", "20240115 07", "20240114 23",
          ⟨"-", "-", "0", "-", "2.0", "9.0"⟩⟩ ∧
    (⟨"SEOUL", "20240115 07", "20240114 23",
        ⟨"-", "-", "0", "-", "2.0", "9.0"⟩⟩ : WSuccess).data.tmn = "2.0" ∧
    (⟨"SEOUL", "20240115 07", "20240114 23",
        ⟨"-", "-", "0", "-", "2.0", "9.0"⟩⟩ : WSuccess).data.tmx = "9.0" := by
  have hout : get_weather "SEOUL" (.ok (.many [])) (.ok (.many c5wItems))
      "20240115" "0700" "20240114" "20240115" "20240116"
      = .success ⟨"SEOUL", "20240115 07", "20240114 23",
          ⟨"-", "-", "0", "-", "2.0", "9.0"⟩⟩ := by decide
  have h := c5_amended_tm_selection "SEOUL" (.ok (.many [])) (.ok (.many c5wItems))
    "20240115" "0700" "20240114" "20240115" "20240116"
    ⟨"SEOUL", "20240115 07", "20240114 23", ⟨"-", "-", "0", "-", "2.0", "9.0"⟩⟩
    (.many c5wItems) c5wItems rfl rfl hout
  exact ⟨hout, h.1.trans (by decide), h.2.trans (by decide)⟩

/-! ## Claim C3: the "-" sentinel for absent categories -/

def c3foreItems : List WItem := [⟨"TMX", "", "20240116", "0200", "8.0"⟩]

/-- **C3 counterexample.** With PTY absent from the current-reading items,
a success payload is returned whose `rainType` is `"0"` (the field's
initial value at line 516), not the `"-"` sentinel the claim requires. -/
theorem c3_counterexample :
    (∀ i ∈ wItemsOf (.ok (.many [])), i.category ≠ "PTY") ∧
    get_weather "SEOUL" (.ok (.many [])) (.ok (.many c3foreItems))
      "20240115" "0700" "20240114" "20240115" "20240116"
      = .success ⟨"SEOUL", "20240115 07", "20240114 23",
          ⟨"-", "-", "0", "-", "-", "8.0"⟩⟩ ∧
    ("0" : String) ≠ "-" := by
  refine ⟨?_, ?_, ?_⟩
  · intro i hi
    cases hi
  · decide
  · decide

/-- **C3 amended.** In any run that returns a success payload: an absent
`T1H`, `REH`, `SKY` or `TMN` category leaves its field exactly `"-"`, but
an absent `PTY` leaves `rainType` exactly `"0"` (its initial value); an
absent `TMX` leaves `tmx = "-"` only in the degenerate case where the
whole forecast structure was missing, since otherwise no success payload
is produced (see C10). -/
theorem c3_amended_sentinels (campus : String) (cur fore : WFetch)
    (bd bt fd ts tms : String) (s : WSuccess)
    (hout : get_weather campus cur fore bd bt fd ts tms = .success s) :
    ((∀ i ∈ wItemsOf cur, i.category ≠ "T1H") → s.data.temp = "-") ∧
    ((∀ i ∈ wItemsOf cur, i.category ≠ "REH") → s.data.humidity = "-") ∧
    ((∀ i ∈ wItemsOf cur, i.category ≠ "PTY") → s.data.rainType = "0") ∧
    ((∀ i ∈ wItemsOf fore, i.category ≠ "SKY") → s.data.sky = "-") ∧
    ((∀ i ∈ wItemsOf fore, i.category ≠ "TMN") → s.data.tmn = "-") ∧
    ((∀ i ∈ wItemsOf fore, i.category ≠ "TMX") → s.data.tmx = "-") := by
  have hw := get_weather_success_inv campus cur fore bd bt fd ts tms s hout
  obtain ⟨⟨shape, curItems, hc, hcn⟩, ⟨fshape, hf⟩⟩ :=
    weatherCore_ok_inv cur fore ts tms s.data hw
  subst hc
  subst hf
  have hcur : wItemsOf (.ok shape) = curItems := by
    show (normalizeItems shape).getD [] = curItems
    rw [hcn]
    rfl
  rw [hcur]
  cases hfn : normalizeItems fshape with
  | none =>
    simp only [weatherCore, hcn, hfn] at hw
    injection hw with hw'
    have hfore : wItemsOf (.ok fshape) = [] := by
      show (normalizeItems fshape).getD [] = ([] : List WItem)
      rw [hfn]
      rfl
    rw [hfore, ← hw']
    have hkeep := parseCurrent_keeps_forecast curItems initResult
    refine ⟨?_, ?_, ?_, ?_, ?_, ?_⟩
    · intro h
      exact parseCurrent_temp_ne curItems h initResult
    · intro h
      exact parseCurrent_humidity_ne curItems h initResult
    · intro h
      exact parseCurrent_rainType_ne curItems h initResult
    · intro h
      exact hkeep.1
    · intro h
      exact hkeep.2.1
    · intro h
      exact hkeep.2.2
  | some foreItems =>
    simp only [weatherCore, hcn, hfn, forecastPhase_eq] at hw
    split_ifs at hw with hfound
    · injection hw with hw'
      have hfore : wItemsOf (.ok fshape) = foreItems := by
        show (normalizeItems fshape).getD [] = foreItems
        rw [hfn]
        rfl
      rw [hfore, ← hw']
      have hkeepc := foldl_fStep_keeps_current ts tms tms tms foreItems
        ⟨parseCurrent curItems initResult, "0000", "", false, false⟩
      have hkeepp := parseCurrent_keeps_forecast curItems initResult
      refine ⟨?_, ?_, ?_, ?_, ?_, ?_⟩
      · intro h
        rw [hkeepc.1]
        exact parseCurrent_temp_ne curItems h initResult
      · intro h
        rw [hkeepc.2.1]
        exact parseCurrent_humidity_ne curItems h initResult
      · intro h
        rw [hkeepc.2.2]
        exact parseCurrent_rainType_ne curItems h initResult
      · intro h
        rw [foldl_fStep_sky_ne ts tms tms tms foreItems h _]
        exact hkeepp.1
      · intro h
        have hfind : foreItems.find?
            (fun i => i.category == "TMN" && i.fcstDate == tms) = none := by
          apply List.find?_eq_none.mpr
          intro i hi hcontra
          have hcc : i.category = "TMN" ∧ i.fcstDate = tms := by
            simpa [Bool.and_eq_true, beq_iff_eq] using hcontra
          exact h i hi hcc.1
        have htmn := foldl_fStep_tmn_char ts tms tms tms foreItems
          ⟨parseCurrent curItems initResult, "0000", "", false, false⟩ rfl
        rw [hfind] at htmn
        have h1 : (foreItems.foldl (fStep ts tms tms tms)
            ⟨parseCurrent curItems initResult, "0000", "", false, false⟩).r.tmn
              = (parseCurrent curItems initResult).tmn :=
          congrArg Prod.fst htmn
        rw [h1]
        exact hkeepp.2.1
      · intro h
        have hfind : foreItems.find?
            (fun i => i.category == "TMX" && i.fcstDate == tms) = none := by
          apply List.find?_eq_none.mpr
          intro i hi hcontra
          have hcc : i.category = "TMX" ∧ i.fcstDate = tms := by
            simpa [Bool.and_eq_true, beq_iff_eq] using hcontra
          exact h i hi hcc.1
        have htmx := foldl_fStep_tmx_char ts tms tms tms foreItems
          ⟨parseCurrent curItems initResult, "0000", "", false, false⟩ rfl
        rw [hfind] at htmx
        have h2 : (foreItems.foldl (fStep ts tms tms tms)
            ⟨parseCurrent curItems initResult, "0000", "", false, false⟩).tmxFound
              = false :=
          congrArg Prod.snd htmx
        rw [hfound] at h2
        cases h2

/-- Witness for C3 amended: all categories absent (empty current items,
missing forecast structure) give a success payload whose fields are `"-"`
except `rainType = "0"`. -/
theorem c3_amended_sentinels_witness :
    (⟨"SEOUL", "20240115 07", "20240114 23",
        ⟨"-", "-", "0", "-", "-", "-"⟩⟩ : WSuccess).data.temp = "-" ∧
    (⟨"SEOUL", "20240115 07", "20240114 23",
        ⟨"-", "-", "0", "-", "-", "-"⟩⟩ : WSuccess).data.humidity = "-" ∧
    (⟨"SEOUL", "20240115 07", "20240114 23",
        ⟨"-", "-", "0", "-", "-", "-"⟩⟩ : WSuccess).data.rainType = "0" ∧
    (⟨"SEOUL", "20240115 07", "20240114 23",
        ⟨"-", "-", "0", "-", "-", "-"⟩⟩ : WSuccess).data.sky = "-" ∧
    (⟨"SEOUL", "20240115 07", "20240114 23",
        ⟨"-", "-", "0", "-", "-", "-"⟩⟩ : WSuccess).data.tmn = "-" ∧
    (⟨"SEOUL", "20240115 07", "20240114 23",
        ⟨"-", "-", "0", "-", "-", "-"⟩⟩ : WSuccess).data.tmx = "-" := by
  have h := c3_amended_sentinels "SEOUL" (.ok (.many [])) (.ok .missing)
    "20240115" "0700" "20240114" "20240115" "20240116"
    ⟨"SEOUL", "20240115 07", "20240114 23", ⟨"-", "-", "0", "-", "-", "-"⟩⟩
    (by decide)
  have habs : ∀ i ∈ wItemsOf (WFetch.ok (.many [])), i.category ≠ "PTY" := by
    intro i hi
    cases hi
  exact ⟨h.1 (by intro i hi; cases hi), h.2.1 (by intro i hi; cases hi),
    h.2.2.1 habs, h.2.2.2.1 (by intro i hi; cases hi),
    h.2.2.2.2.1 (by intro i hi; cases hi), h.2.2.2.2.2 (by intro i hi; cases hi)⟩

end HufsClock
